import Mathlib

/-!
Verification of the MiniLLM feed-forward neural-network engine
(`public/js/nav.js`, module NeuralEngine).

The JavaScript engine is embedded shallowly over an arbitrary linear ordered
field `K` (instantiated with `ℚ` in concrete evaluations).  JavaScript numbers
are idealized as elements of `K`; the transcendental primitives used by the
source (`Math.exp`, `Math.log`, `Math.tanh`, `Math.sin`, `Math.cos`, `Math.PI`)
are abstracted as parameters, and the pseudo-random stream `Math.random()` is
abstracted as a function `rand : Nat → K` giving the successive draws, in the
order the source consumes them.  Mutation is modelled by explicit state
passing: every method that mutates a `Layer` or a `NeuralNetwork` returns the
updated value together with its JavaScript return value.
-/

namespace MiniLLM

/-- The transcendental primitives of the JavaScript `Math` object that the
engine uses, abstracted as parameters of the embedding. -/
structure Prims (K : Type) where
  exp : K → K
  log : K → K
  tanhF : K → K

/-- An entry of the `Activations` registry: an activation function together
with its derivative rule (`dfn` follows the input convention of the source:
output value for sigmoid/tanh, constant for linear). -/
structure Activation (K : Type) where
  fn : K → K
  dfn : K → K
  name : String

variable {K : Type} [LinearOrderedField K]

/-- `Activations.sigmoid` of the source: the argument is clamped to
`[-500, 500]` before exponentiating; the derivative takes the output `y`. -/
def Activations.sigmoid (P : Prims K) : Activation K :=
  { fn := fun x => 1 / (1 + P.exp (-(max (-500) (min 500 x)))),
    dfn := fun y => y * (1 - y),
    name := "Sigmoid" }

/-- `Activations.relu` of the source. -/
def Activations.relu : Activation K :=
  { fn := fun x => max 0 x,
    dfn := fun y => if 0 < y then 1 else 0,
    name := "ReLU" }

/-- `Activations.tanh` of the source. -/
def Activations.tanh (P : Prims K) : Activation K :=
  { fn := fun x => P.tanhF x,
    dfn := fun y => 1 - y * y,
    name := "Tanh" }

/-- `Activations.linear` of the source. -/
def Activations.linear : Activation K :=
  { fn := fun x => x,
    dfn := fun _ => 1,
    name := "Linear" }

/-- The lookup `Activations[name] || Activations.sigmoid` performed by the
`Layer` constructor: own-key lookup in the registry object with a silent
fallback to sigmoid. -/
def Activations.lookup (P : Prims K) (name : String) : Activation K :=
  if name = "sigmoid" then Activations.sigmoid P
  else if name = "relu" then Activations.relu
  else if name = "tanh" then Activations.tanh P
  else if name = "linear" then Activations.linear
  else Activations.sigmoid P

/-- An entry of the `Losses` registry. -/
structure Loss (K : Type) where
  fn : List K → List K → K
  dfn : List K → List K → List K

/-- `Losses.mse` of the source: mean over output dimensions of the squared
difference; the gradient is `2 (p_i - t_i) / predicted.length`. -/
def Losses.mse : Loss K :=
  { fn := fun predicted target =>
      (∑ i in Finset.range predicted.length,
        (predicted.getD i 0 - target.getD i 0) * (predicted.getD i 0 - target.getD i 0))
        / (predicted.length : K),
    dfn := fun predicted target =>
      predicted.mapIdx fun i p => 2 * (p - target.getD i 0) / (predicted.length : K) }

/-- The clamp `Math.max(1e-15, Math.min(1 - 1e-15, p))` used by both
cross-entropy functions. -/
def clampProb (p : K) : K :=
  max (1 / 10 ^ 15) (min (1 - 1 / 10 ^ 15) p)

/-- `Losses.crossEntropy` of the source: probabilities are clamped to
`[1e-15, 1 - 1e-15]` before the logarithms are taken. -/
def Losses.crossEntropy (P : Prims K) : Loss K :=
  { fn := fun predicted target =>
      (∑ i in Finset.range predicted.length,
        -(target.getD i 0 * P.log (clampProb (predicted.getD i 0)) +
          (1 - target.getD i 0) * P.log (1 - clampProb (predicted.getD i 0))))
        / (predicted.length : K),
    dfn := fun predicted target =>
      predicted.mapIdx fun i p =>
        (-(target.getD i 0) / clampProb p + (1 - target.getD i 0) / (1 - clampProb p))
          / (predicted.length : K) }

/-- The lookup `Losses[lossType] || Losses.mse` performed by `trainBatch`. -/
def Losses.lookup (P : Prims K) (name : String) : Loss K :=
  if name = "mse" then Losses.mse
  else if name = "crossEntropy" then Losses.crossEntropy P
  else Losses.mse

/-- A training sample `{input, target}`. -/
structure Sample (K : Type) where
  input : List K
  target : List K

/-- The `Layer` class.  Weight matrices are rows (one per output unit) of
columns (one per input); the three `Option` fields are the single-slot cache
written by `forward` (`null` before the first call). -/
structure Layer (K : Type) where
  inputSize : Nat
  outputSize : Nat
  activation : Activation K
  activationName : String
  weights : List (List K)
  biases : List K
  weightGrads : List (List K)
  biasGrads : List K
  input : Option (List K)
  output : Option (List K)
  preActivation : Option (List K)

/-- The `Layer` constructor.  The source draws each weight as
`(Math.random()*2-1) * sqrt(2/(inputSize+outputSize))` and each bias as
`(Math.random()*2-1) * 0.1`; those random draws are abstracted here as the
given value families `w0` and `b0`.  Gradient accumulators start at zero and
the cache starts empty (`null`). -/
def Layer.construct (P : Prims K) (inputSize outputSize : Nat) (activationName : String)
    (w0 : Nat → Nat → K) (b0 : Nat → K) : Layer K :=
  { inputSize := inputSize,
    outputSize := outputSize,
    activation := Activations.lookup P activationName,
    activationName := activationName,
    weights := (List.range outputSize).map fun i => (List.range inputSize).map fun j => w0 i j,
    biases := (List.range outputSize).map fun i => b0 i,
    weightGrads := (List.range outputSize).map fun _ => List.replicate inputSize 0,
    biasGrads := List.replicate outputSize 0,
    input := none,
    output := none,
    preActivation := none }

/-- `Layer.forward`: caches a copy of the input, computes each pre-activation
`bias_i + Σ_j weight_ij * input_j` and each output `fn(preActivation_i)`,
caches both, and returns the output vector. -/
def Layer.forward (l : Layer K) (inp : List K) : Layer K × List K :=
  let pre := (List.range l.outputSize).map fun i =>
    l.biases.getD i 0 +
      ∑ j in Finset.range l.inputSize, (l.weights.getD i []).getD j 0 * inp.getD j 0
  let out := pre.map l.activation.fn
  ({ l with input := some inp, preActivation := some pre, output := some out }, out)

/-- The per-unit error term `delta_i` computed inside `Layer.backward`: the
source special-cases relu (derivative from the cached pre-activation sign) and
linear (derivative 1), and otherwise applies `activation.dfn` to the cached
output. -/
def Layer.delta (l : Layer K) (outputError : List K) (i : Nat) : K :=
  if l.activationName = "relu" then
    outputError.getD i 0 * (if 0 < (l.preActivation.getD []).getD i 0 then 1 else 0)
  else if l.activationName = "linear" then
    outputError.getD i 0
  else
    outputError.getD i 0 * l.activation.dfn ((l.output.getD []).getD i 0)

/-- `Layer.backward`: accumulates `biasGrads[i] += delta_i` and
`weightGrads[i][j] += delta_i * input[j]` over `i < outputSize`,
`j < inputSize`, and returns `inputError_j = Σ_i delta_i * weights[i][j]`. -/
def Layer.backward (l : Layer K) (outputError : List K) : Layer K × List K :=
  let inputError := (List.range l.inputSize).map fun j =>
    ∑ i in Finset.range l.outputSize,
      Layer.delta l outputError i * (l.weights.getD i []).getD j 0
  ({ l with
      biasGrads := (List.range l.outputSize).map fun i =>
        l.biasGrads.getD i 0 + Layer.delta l outputError i,
      weightGrads := (List.range l.outputSize).map fun i =>
        (List.range l.inputSize).map fun j =>
          (l.weightGrads.getD i []).getD j 0 +
            Layer.delta l outputError i * (l.input.getD []).getD j 0 },
   inputError)

/-- `Layer.applyGradients(lr, l2, batchSize)`: performs the update
`bias_i -= lr * biasGrads_i / batchSize` and
`weight_ij -= lr * (weightGrads_ij / batchSize + l2 * weight_ij)` and zeroes
both accumulators, all in the same loop as the source. -/
def Layer.applyGradients (l : Layer K) (lr l2 : K) (batchSize : Nat) : Layer K :=
  { l with
      biases := (List.range l.outputSize).map fun i =>
        l.biases.getD i 0 - lr * (l.biasGrads.getD i 0 / (batchSize : K)),
      biasGrads := (List.range l.outputSize).map fun _ => 0,
      weights := (List.range l.outputSize).map fun i =>
        (List.range l.inputSize).map fun j =>
          (l.weights.getD i []).getD j 0 -
            lr * ((l.weightGrads.getD i []).getD j 0 / (batchSize : K) +
              l2 * (l.weights.getD i []).getD j 0),
      weightGrads := (List.range l.outputSize).map fun _ =>
        (List.range l.inputSize).map fun _ => 0 }

/-- `Layer.zeroGrad`: resets both accumulators to zero. -/
def Layer.zeroGrad (l : Layer K) : Layer K :=
  { l with
      biasGrads := (List.range l.outputSize).map fun _ => 0,
      weightGrads := (List.range l.outputSize).map fun _ =>
        (List.range l.inputSize).map fun _ => 0 }

/-- The `NeuralNetwork` class.  `loss` starts at `Infinity`, modelled by `⊤`
in `WithTop K`. -/
structure NeuralNetwork (K : Type) where
  topology : List Nat
  layers : List (Layer K)
  activationName : String
  outputActivationName : String
  epoch : Nat
  loss : WithTop K

/-- The `NeuralNetwork` constructor: for `i` from `1` to `topology.length - 1`
builds a `Layer(topology[i-1], topology[i], act)` where `act` is the output
activation for the last layer and the hidden activation otherwise.  The random
draws of each layer are abstracted as the families `w0` and `b0` indexed by
the layer position. -/
def NeuralNetwork.construct (P : Prims K) (topology : List Nat)
    (activation outputActivation : String)
    (w0 : Nat → Nat → Nat → K) (b0 : Nat → Nat → K) : NeuralNetwork K :=
  { topology := topology,
    layers := (List.range (topology.length - 1)).map fun k =>
      Layer.construct P (topology.getD k 0) (topology.getD (k + 1) 0)
        (if k + 1 = topology.length - 1 then outputActivation else activation)
        (w0 k) (b0 k),
    activationName := activation,
    outputActivationName := outputActivation,
    epoch := 0,
    loss := ⊤ }

/-- The loop `for (const layer of this.layers) out = layer.forward(out)`:
threads the running vector through every layer in order, collecting the
updated layers. -/
def forwardLayers : List (Layer K) → List K → List (Layer K) × List K
  | [], x => ([], x)
  | l :: rest, x =>
      let s := Layer.forward l x
      let r := forwardLayers rest s.2
      (s.1 :: r.1, r.2)

/-- The value returned by `forward` (the layer cache updates projected away). -/
def predictLayers (ls : List (Layer K)) (x : List K) : List K :=
  (forwardLayers ls x).2

/-- `NeuralNetwork.forward`. -/
def NeuralNetwork.forward (net : NeuralNetwork K) (inp : List K) :
    NeuralNetwork K × List K :=
  let r := forwardLayers net.layers inp
  ({ net with layers := r.1 }, r.2)

/-- The loop `for (i = layers.length - 1; i >= 0; i--) error = layers[i].backward(error)`:
the error vector enters at the last layer and each layer's `backward` output
feeds the previous layer's `backward` input. -/
def backLayers : List (Layer K) → List K → List (Layer K) × List K
  | [], e => ([], e)
  | l :: rest, e =>
      let r := backLayers rest e
      let s := Layer.backward l r.2
      (s.1 :: r.1, s.2)

/-- `NeuralNetwork.trainBatch(data, lr, lossType, l2)`: resolves the loss,
zeroes every layer's accumulators, folds over the samples in order (forward,
add the loss to the running total, backpropagate from last layer to first),
then applies the gradients on every layer with `batchSize = data.length`,
stores `totalLoss / data.length` in `loss`, increments `epoch`, and returns
the average loss. -/
def NeuralNetwork.trainBatch (P : Prims K) (net : NeuralNetwork K)
    (data : List (Sample K)) (lr : K) (lossType : String) (l2 : K) :
    NeuralNetwork K × K :=
  let lossFn := Losses.lookup P lossType
  let net0 : NeuralNetwork K := { net with layers := net.layers.map Layer.zeroGrad }
  let r := data.foldl (fun (acc : NeuralNetwork K × K) sample =>
      let f := NeuralNetwork.forward acc.1 sample.input
      let tl := acc.2 + lossFn.fn f.2 sample.target
      let e0 := lossFn.dfn f.2 sample.target
      let b := backLayers f.1.layers e0
      ({ f.1 with layers := b.1 }, tl)) (net0, (0 : K))
  let net1 : NeuralNetwork K :=
    { r.1 with layers := r.1.layers.map fun l => Layer.applyGradients l lr l2 data.length }
  let avg := r.2 / (data.length : K)
  ({ net1 with loss := (avg : WithTop K), epoch := net1.epoch + 1 }, avg)

/-- `NeuralNetwork.train(data, epochs, ...)`: calls `trainBatch` `epochs`
times, collecting the returned losses. -/
def NeuralNetwork.train (P : Prims K) (net : NeuralNetwork K)
    (data : List (Sample K)) (epochs : Nat) (lr : K) (lossType : String) (l2 : K) :
    NeuralNetwork K × List K :=
  (List.range epochs).foldl (fun (acc : NeuralNetwork K × List K) _ =>
      let r := NeuralNetwork.trainBatch P acc.1 data lr lossType l2
      (r.1, acc.2 ++ [r.2])) (net, [])

/-- `NeuralNetwork.paramCount`: sums `outputSize * inputSize + outputSize`
over the layers. -/
def NeuralNetwork.paramCount (net : NeuralNetwork K) : Nat :=
  net.layers.foldl (fun count l => count + l.outputSize * l.inputSize + l.outputSize) 0

/-- `NeuralNetwork.classifyGrid(resolution, xMin, xMax, yMin, yMax)`: fills a
flat `resolution * resolution` buffer, row `i` after row `i-1`, where the cell
`(i, j)` holds the first output dimension of `forward([x, y])` at
`x = xMin + j*xStep + xStep/2`, `y = yMin + i*yStep + yStep/2` (each `forward`
call mutates the layer caches, so the network state is threaded through). -/
def NeuralNetwork.classifyGrid (net : NeuralNetwork K) (resolution : Nat)
    (xMin xMax yMin yMax : K) : NeuralNetwork K × List K :=
  let xStep := (xMax - xMin) / (resolution : K)
  let yStep := (yMax - yMin) / (resolution : K)
  (List.range resolution).foldl (fun (acc : NeuralNetwork K × List K) (i : Nat) =>
      (List.range resolution).foldl (fun (acc2 : NeuralNetwork K × List K) (j : Nat) =>
          let x := xMin + (j : K) * xStep + xStep / 2
          let y := yMin + (i : K) * yStep + yStep / 2
          let f := NeuralNetwork.forward acc2.1 [x, y]
          (f.1, acc2.2 ++ [f.2.getD 0 0])) acc)
    (net, ([] : List K))

/-- `Datasets.circle(n)`.  Iteration `i` consumes five random draws in source
order: the angle factor, the inner/outer coin, the radius factor, and the two
coordinate jitters.  `Math.PI`, `Math.cos` and `Math.sin` are abstracted as
parameters. -/
def Datasets.circle (sinK cosK : K → K) (piK : K) (rand : Nat → K) (n : Nat) :
    List (Sample K) :=
  (List.range n).map fun i =>
    let angle := rand (5 * i) * piK * 2
    let r := if rand (5 * i + 1) < 1 / 2 then rand (5 * i + 2) * 2
             else 5 / 2 + rand (5 * i + 2) * 2
    let x := r * cosK angle + (rand (5 * i + 3) - 1 / 2) * (3 / 10)
    let y := r * sinK angle + (rand (5 * i + 4) - 1 / 2) * (3 / 10)
    { input := [x, y],
      target := [if rand (5 * i + 1) < 1 / 2 then 1 else 0] }

/-- `Datasets.xor(n)`.  Iteration `i` consumes four random draws in source
order: the two pre-jitter coordinates and the two jitters; the label is `1`
exactly when the pre-jitter signs `x > 0` and `y > 0` differ. -/
def Datasets.xor (rand : Nat → K) (n : Nat) : List (Sample K) :=
  (List.range n).map fun i =>
    let x := rand (4 * i) * 6 - 3
    let y := rand (4 * i + 1) * 6 - 3
    let lbl : K := if (0 < x) ↔ (0 < y) then 0 else 1
    { input := [x + (rand (4 * i + 2) - 1 / 2) * (1 / 2),
                y + (rand (4 * i + 3) - 1 / 2) * (1 / 2)],
      target := [lbl] }

/-- `Datasets.spiral(n)`: two arms of `floor(n/2)` samples each (`c = 0` then
`c = 1`), each sample consuming two jitter draws; `1.75` is written `7/4`. -/
def Datasets.spiral (sinK cosK : K → K) (piK : K) (rand : Nat → K) (n : Nat) :
    List (Sample K) :=
  let half := n / 2
  (List.range 2).flatMap fun c =>
    (List.range half).map fun i =>
      let idx : Nat := 2 * (c * half + i)
      let r := ((i : K) / (half : K)) * 5
      let t := 7 / 4 * (i : K) / (half : K) * 2 * piK + (c : K) * piK
      let x := r * sinK t + (rand idx - 1 / 2) * (1 / 2)
      let y := r * cosK t + (rand (idx + 1) - 1 / 2) * (1 / 2)
      { input := [x, y], target := [(c : K)] }

/-- `Datasets.gaussian(n)`: `floor(n/2)` loop iterations, each pushing one
class-1 sample around `(2, 2)` and one class-0 sample around `(-2, -2)`;
`1.2` is written `6/5`.  The Box-Muller draws of the source's inner `randn`
(whose rejection loops re-draw zero uniforms) are abstracted as the stream
`randn`, consumed four per iteration in source order. -/
def Datasets.gaussian (randn : Nat → K) (n : Nat) : List (Sample K) :=
  let half := n / 2
  (List.range half).flatMap fun i =>
    [{ input := [randn (4 * i) * (6 / 5) + 2, randn (4 * i + 1) * (6 / 5) + 2],
       target := [1] },
     { input := [randn (4 * i + 2) * (6 / 5) - 2, randn (4 * i + 3) * (6 / 5) - 2],
       target := [0] }]

/-- `Datasets.checkerboard(n)`.  Iteration `i` consumes two draws; the label
is `(floor(x+4) + floor(y+4)) % 2` where `%` is the JavaScript remainder
(truncated toward zero, `Int.tmod`; on the nonnegative values produced by
`Math.random() ∈ [0,1)` this agrees with the euclidean `%`). -/
def Datasets.checkerboard [FloorRing K] (rand : Nat → K) (n : Nat) : List (Sample K) :=
  (List.range n).map fun i =>
    let x := rand (2 * i) * 8 - 4
    let y := rand (2 * i + 1) * 8 - 4
    let cx : Int := Int.floor (x + 4)
    let cy : Int := Int.floor (y + 4)
    { input := [x, y], target := [((Int.tmod (cx + cy) 2 : Int) : K)] }

/-- A default `Layer`, used only as the fallback value of `List.getD`. -/
def defaultLayer : Layer K :=
  { inputSize := 0, outputSize := 0, activation := Activations.linear,
    activationName := "linear", weights := [], biases := [], weightGrads := [],
    biasGrads := [], input := none, output := none, preActivation := none }

/-- The persistent parameters and accumulators of a layer — everything except
the transient forward cache. -/
def paramsOf (l : Layer K) : List (List K) × List K × List (List K) × List K :=
  (l.weights, l.biases, l.weightGrads, l.biasGrads)

/-- The layer with its transient cache cleared and its accumulators dropped:
two layers with the same `core` behave identically under `forward`. -/
def Layer.core (l : Layer K) : Layer K :=
  { l with weightGrads := [], biasGrads := [], input := none, output := none,
           preActivation := none }

/-- The bias-gradient accumulator of layer `k`, unit `i`, read off a layer
list. -/
def bgAt (ls : List (Layer K)) (k i : Nat) : K :=
  ((ls.getD k defaultLayer).biasGrads).getD i 0

/-- The weight-gradient accumulator of layer `k`, unit `i`, input `j`. -/
def wgAt (ls : List (Layer K)) (k i j : Nat) : K :=
  (((ls.getD k defaultLayer).weightGrads).getD i []).getD j 0

/-- The weight of layer `k`, unit `i`, input `j`, read off a layer list. -/
def wAt (ls : List (Layer K)) (k i j : Nat) : K :=
  (((ls.getD k defaultLayer).weights).getD i []).getD j 0

/-- The bias of layer `k`, unit `i`, read off a layer list. -/
def bAt (ls : List (Layer K)) (k i : Nat) : K :=
  ((ls.getD k defaultLayer).biases).getD i 0

/-- The gradient contribution of a single sample, as the specification
describes one iteration of the batch loop run in isolation: zero the
accumulators, run `forward` on the sample input, feed the loss gradient
backward from the last layer to the first, and keep the resulting layers
(whose accumulators then hold exactly this sample's gradient). -/
def gradLayers (loss' : Loss K) (ls : List (Layer K)) (s : Sample K) : List (Layer K) :=
  let z := ls.map Layer.zeroGrad
  let f := forwardLayers z s.input
  (backLayers f.1 (loss'.dfn f.2 s.target)).1

/-- The per-sample body of the `trainBatch` loop: forward, add the sample
loss to the running total, compute the loss gradient, and feed it backward
from the last layer to the first. -/
def nnStep (P : Prims K) (lossT : String) (acc : NeuralNetwork K × K)
    (sample : Sample K) : NeuralNetwork K × K :=
  let f := NeuralNetwork.forward acc.1 sample.input
  let tl := acc.2 + (Losses.lookup P lossT).fn f.2 sample.target
  let e0 := (Losses.lookup P lossT).dfn f.2 sample.target
  let b := backLayers f.1.layers e0
  ({ f.1 with layers := b.1 }, tl)

/-- The grid as the specification describes it: for each cell `(i, j)` of a
`resolution × resolution` regular grid, the first output dimension of the
network's prediction at the cell center, row by row. -/
def classifyGridPure (net : NeuralNetwork K) (resolution : Nat)
    (xMin xMax yMin yMax : K) : List K :=
  let xStep := (xMax - xMin) / (resolution : K)
  let yStep := (yMax - yMin) / (resolution : K)
  (List.range resolution).flatMap fun (i : Nat) =>
    (List.range resolution).map fun (j : Nat) =>
      (predictLayers net.layers
        [xMin + (j : K) * xStep + xStep / 2,
         yMin + (i : K) * yStep + yStep / 2]).getD 0 0

/-- The shape contract of a generated sample claimed by the specification:
a 2-element input and a 1-element target whose value is 0 or 1. -/
def sampleShapeOk (s : Sample K) : Prop :=
  s.input.length = 2 ∧ s.target.length = 1 ∧
    (s.target.getD 0 0 = 0 ∨ s.target.getD 0 0 = 1)

/-- The structural signature of a layer: its sizes and activation name. -/
def sig (l : Layer K) : Nat × Nat × String :=
  (l.inputSize, l.outputSize, l.activationName)

/-- The structural invariant of a network claimed by the specification:
`topology.length - 1` layers, layer `k` maps `topology[k]` inputs to
`topology[k+1]` outputs (hence consecutive layers compose), every layer but
the last carries the hidden activation name and the last carries the output
activation name. -/
def StructOk (net : NeuralNetwork K) : Prop :=
  net.layers.length = net.topology.length - 1 ∧
  ∀ k, k < net.layers.length →
    (net.layers.getD k defaultLayer).inputSize = net.topology.getD k 0 ∧
    (net.layers.getD k defaultLayer).outputSize = net.topology.getD (k + 1) 0 ∧
    (net.layers.getD k defaultLayer).activationName =
      (if k = net.layers.length - 1 then net.outputActivationName
       else net.activationName)

/-- The activation-specific derivative factor as the specification states
it: `y (1 - y)` of the cached output for sigmoid, `1 - y²` for tanh, the
sign of the cached pre-activation for relu, and the constant 1 for linear. -/
def specDeriv (l : Layer K) (i : Nat) : K :=
  if l.activationName = "sigmoid" then
    (l.output.getD []).getD i 0 * (1 - (l.output.getD []).getD i 0)
  else if l.activationName = "tanh" then
    1 - (l.output.getD []).getD i 0 * (l.output.getD []).getD i 0
  else if l.activationName = "relu" then
    (if 0 < (l.preActivation.getD []).getD i 0 then 1 else 0)
  else
    1

/-- A concrete primitive pack over `ℚ`, used to evaluate the engine on
concrete inputs (the exponential is a positive constant). -/
def Pq : Prims ℚ :=
  { exp := fun _ => 1, log := fun _ => 0, tanhF := fun _ => 0 }

/-- The one-sample dataset used by the concrete witness instantiation of the
training claim. -/
def cwData : List (Sample ℚ) :=
  [{ input := [1, 0], target := [1] }]

/-- The layer used by the concrete witness instantiation of the backward
claim: a freshly constructed 1-to-1 sigmoid layer over `ℚ`. -/
def cw2Layer : Layer ℚ :=
  Layer.construct Pq 1 1 "sigmoid" (fun _ _ => 1) (fun _ => 0)

/-- The network used by concrete witness instantiations: topology
`[2, 2, 1]` with tanh hidden units and a sigmoid output, over `ℚ`. -/
def cwNet : NeuralNetwork ℚ :=
  NeuralNetwork.construct Pq [2, 2, 1] "tanh" "sigmoid"
    (fun _ _ _ => 1) (fun _ _ => 0)

/-! ### List helpers -/

theorem getD_range_map {α : Type} (f : Nat → α) (d : α) (n i : Nat) :
    ((List.range n).map f).getD i d = if i < n then f i else d := by
  by_cases h : i < n
  · simp [List.getD_eq_getElem?_getD, List.getElem?_map, List.getElem?_range, h]
  · have hlen : ((List.range n).map f).length ≤ i := by
      simpa using Nat.le_of_not_lt h
    simp [List.getD_eq_getElem?_getD, List.getElem?_eq_none hlen, h]

theorem getD_map {α β : Type} (f : α → β) (l : List α) (k : Nat) (d : α) :
    (l.map f).getD k (f d) = f (l.getD k d) := by
  simp [List.getD_eq_getElem?_getD, List.getElem?_map]

theorem sum_map_range {M : Type} [AddCommMonoid M] (n : Nat) (f : Nat → M) :
    ((List.range n).map f).sum = ∑ k in Finset.range n, f k := by
  induction n with
  | zero => simp
  | succ m ih => rw [List.range_succ, Finset.sum_range_succ]; simp [ih]

theorem getD_replicate {α : Type} (a d : α) (n i : Nat) :
    (List.replicate n a).getD i d = if i < n then a else d := by
  rw [List.getD_eq_getElem?_getD, List.getElem?_replicate]
  split <;> rfl

theorem foldl_add_count (init : Nat) (ls : List (Layer K)) :
    ls.foldl (fun count l => count + l.outputSize * l.inputSize + l.outputSize) init =
      init + (ls.map fun l => l.outputSize * l.inputSize + l.outputSize).sum := by
  induction ls generalizing init with
  | nil => simp
  | cons x xs ih => rw [List.foldl_cons, ih, List.map_cons, List.sum_cons]; ring

/-! ### Claim C3: applyGradients and the accumulator invariant -/

/-- C3: for every layer, learning rate, L2 coefficient and positive batch
size, `applyGradients` performs the updates
`weight_ij -= lr * (weightGrad_ij / batchSize + l2 * weight_ij)` and
`bias_i -= lr * (biasGrad_i / batchSize)`, and afterwards every gradient
accumulator of the layer reads exactly zero; the accumulators also read zero
immediately after `Layer` construction. -/
theorem claim_C3 (lr l2 : K) (batchSize : Nat) (hb : 0 < batchSize) (l : Layer K) :
    (∀ i, i < l.outputSize → ∀ j, j < l.inputSize →
      ((Layer.applyGradients l lr l2 batchSize).weights.getD i []).getD j 0 =
        (l.weights.getD i []).getD j 0 -
          lr * ((l.weightGrads.getD i []).getD j 0 / (batchSize : K) +
            l2 * (l.weights.getD i []).getD j 0)) ∧
    (∀ i, i < l.outputSize →
      (Layer.applyGradients l lr l2 batchSize).biases.getD i 0 =
        l.biases.getD i 0 - lr * (l.biasGrads.getD i 0 / (batchSize : K))) ∧
    (∀ i j, ((Layer.applyGradients l lr l2 batchSize).weightGrads.getD i []).getD j 0 = 0) ∧
    (∀ i, (Layer.applyGradients l lr l2 batchSize).biasGrads.getD i 0 = 0) ∧
    (∀ (P : Prims K) (inS outS : Nat) (name : String)
        (w0 : Nat → Nat → K) (b0 : Nat → K),
      (∀ i j, ((Layer.construct P inS outS name w0 b0).weightGrads.getD i []).getD j 0 = 0) ∧
      (∀ i, (Layer.construct P inS outS name w0 b0).biasGrads.getD i 0 = 0)) := by
  refine ⟨?_, ?_, ?_, ?_, ?_⟩
  · intro i hi j hj
    simp [Layer.applyGradients, getD_range_map, hi, hj]
  · intro i hi
    simp [Layer.applyGradients, getD_range_map, hi]
  · intro i j
    simp only [Layer.applyGradients, getD_range_map]
    split <;> simp [getD_range_map]
  · intro i
    simp only [Layer.applyGradients, getD_range_map]
    split <;> simp
  · intro P inS outS name w0 b0
    constructor
    · intro i j
      simp only [Layer.construct, getD_range_map]
      split <;> simp [getD_replicate]
    · intro i
      simp [Layer.construct, getD_replicate]

/-- Witness for C3: the theorem applied to a concrete layer over `ℚ` with
batch size 2. -/
theorem claim_C3_witness :
    0 < 2 ∧
    ((∀ i, i < (⟨1, 1, Activations.linear, "linear", [[2]], [3], [[4]], [5],
          none, none, none⟩ : Layer ℚ).outputSize → ∀ j,
        j < (⟨1, 1, Activations.linear, "linear", [[2]], [3], [[4]], [5],
          none, none, none⟩ : Layer ℚ).inputSize →
      ((Layer.applyGradients (⟨1, 1, Activations.linear, "linear", [[2]], [3], [[4]], [5],
          none, none, none⟩ : Layer ℚ) 1 1 2).weights.getD i []).getD j 0 =
        (((⟨1, 1, Activations.linear, "linear", [[2]], [3], [[4]], [5],
          none, none, none⟩ : Layer ℚ)).weights.getD i []).getD j 0 -
          1 * ((((⟨1, 1, Activations.linear, "linear", [[2]], [3], [[4]], [5],
          none, none, none⟩ : Layer ℚ)).weightGrads.getD i []).getD j 0 / ((2 : Nat) : ℚ) +
            1 * (((⟨1, 1, Activations.linear, "linear", [[2]], [3], [[4]], [5],
          none, none, none⟩ : Layer ℚ)).weights.getD i []).getD j 0)) ∧
     (∀ i, i < (⟨1, 1, Activations.linear, "linear", [[2]], [3], [[4]], [5],
          none, none, none⟩ : Layer ℚ).outputSize →
      (Layer.applyGradients (⟨1, 1, Activations.linear, "linear", [[2]], [3], [[4]], [5],
          none, none, none⟩ : Layer ℚ) 1 1 2).biases.getD i 0 =
        ((⟨1, 1, Activations.linear, "linear", [[2]], [3], [[4]], [5],
          none, none, none⟩ : Layer ℚ)).biases.getD i 0 -
          1 * (((⟨1, 1, Activations.linear, "linear", [[2]], [3], [[4]], [5],
          none, none, none⟩ : Layer ℚ)).biasGrads.getD i 0 / ((2 : Nat) : ℚ))) ∧
     (∀ i j, ((Layer.applyGradients (⟨1, 1, Activations.linear, "linear", [[2]], [3], [[4]], [5],
          none, none, none⟩ : Layer ℚ) 1 1 2).weightGrads.getD i []).getD j 0 = 0) ∧
     (∀ i, (Layer.applyGradients (⟨1, 1, Activations.linear, "linear", [[2]], [3], [[4]], [5],
          none, none, none⟩ : Layer ℚ) 1 1 2).biasGrads.getD i 0 = 0) ∧
     (∀ (P : Prims ℚ) (inS outS : Nat) (name : String)
        (w0 : Nat → Nat → ℚ) (b0 : Nat → ℚ),
      (∀ i j, ((Layer.construct P inS outS name w0 b0).weightGrads.getD i []).getD j 0 = 0) ∧
      (∀ i, (Layer.construct P inS outS name w0 b0).biasGrads.getD i 0 = 0))) :=
  ⟨by decide,
   claim_C3 1 1 2 (by decide)
     (⟨1, 1, Activations.linear, "linear", [[2]], [3], [[4]], [5], none, none, none⟩ : Layer ℚ)⟩

/-! ### Claim C2: Layer.backward -/

/-- The `delta` computed by `Layer.backward` coincides, on a layer whose
stored activation is the registry lookup of its stored name and whose name is
one of the four registered ones, with `outputGradient_i` times the
activation-specific derivative stated by the specification. -/
theorem delta_eq_specDeriv (P : Prims K) (l : Layer K)
    (hact : l.activation = Activations.lookup P l.activationName)
    (hname : l.activationName = "sigmoid" ∨ l.activationName = "relu" ∨
      l.activationName = "tanh" ∨ l.activationName = "linear")
    (e : List K) (i : Nat) :
    Layer.delta l e i = e.getD i 0 * specDeriv l i := by
  rcases hname with h | h | h | h <;>
    rw [Layer.delta, specDeriv, hact, h] <;>
    simp [Activations.lookup, Activations.sigmoid, Activations.relu,
      Activations.tanh, Activations.linear]

/-- C2: `backward` computes `delta_i = outputGradient_i` times the
activation-specific derivative (`y(1-y)` of the cached output for sigmoid,
`1-y²` for tanh, the cached pre-activation sign for relu, `1` for linear),
adds `delta_i` to `biasGrad_i` and `delta_i * cachedInput_j` to
`weightGrad_ij`, and returns `inputGradient_j = Σ_i delta_i * weight_ij`
computed against the unchanged pre-update weights. -/
theorem claim_C2 (P : Prims K) (l : Layer K)
    (hact : l.activation = Activations.lookup P l.activationName)
    (hname : l.activationName = "sigmoid" ∨ l.activationName = "relu" ∨
      l.activationName = "tanh" ∨ l.activationName = "linear")
    (e : List K) (he : e.length = l.outputSize) :
    (∀ i, i < l.outputSize →
      (Layer.backward l e).1.biasGrads.getD i 0 =
        l.biasGrads.getD i 0 + e.getD i 0 * specDeriv l i) ∧
    (∀ i, i < l.outputSize → ∀ j, j < l.inputSize →
      ((Layer.backward l e).1.weightGrads.getD i []).getD j 0 =
        (l.weightGrads.getD i []).getD j 0 +
          e.getD i 0 * specDeriv l i * (l.input.getD []).getD j 0) ∧
    (∀ j, j < l.inputSize →
      (Layer.backward l e).2.getD j 0 =
        ∑ i in Finset.range l.outputSize,
          e.getD i 0 * specDeriv l i * (l.weights.getD i []).getD j 0) ∧
    (Layer.backward l e).1.weights = l.weights := by
  refine ⟨?_, ?_, ?_, rfl⟩
  · intro i hi
    simp only [Layer.backward, getD_range_map, hi, if_true]
    rw [delta_eq_specDeriv P l hact hname]
  · intro i hi j hj
    simp only [Layer.backward, getD_range_map, hi, hj, if_true]
    rw [delta_eq_specDeriv P l hact hname]
  · intro j hj
    simp only [Layer.backward, getD_range_map, hj, if_true]
    exact Finset.sum_congr rfl fun i _ => by
      rw [delta_eq_specDeriv P l hact hname]

/-- Witness for C2: the theorem applied to the concrete sigmoid layer
`cw2Layer` over `ℚ` and the output gradient `[2]`. -/
theorem claim_C2_witness :
    (cw2Layer.activation = Activations.lookup Pq cw2Layer.activationName ∧
     (cw2Layer.activationName = "sigmoid" ∨ cw2Layer.activationName = "relu" ∨
       cw2Layer.activationName = "tanh" ∨ cw2Layer.activationName = "linear") ∧
     ([(2 : ℚ)].length = cw2Layer.outputSize)) ∧
    ((∀ i, i < cw2Layer.outputSize →
      (Layer.backward cw2Layer [(2 : ℚ)]).1.biasGrads.getD i 0 =
        cw2Layer.biasGrads.getD i 0 + [(2 : ℚ)].getD i 0 * specDeriv cw2Layer i) ∧
     (∀ i, i < cw2Layer.outputSize → ∀ j, j < cw2Layer.inputSize →
      ((Layer.backward cw2Layer [(2 : ℚ)]).1.weightGrads.getD i []).getD j 0 =
        (cw2Layer.weightGrads.getD i []).getD j 0 +
          [(2 : ℚ)].getD i 0 * specDeriv cw2Layer i * (cw2Layer.input.getD []).getD j 0) ∧
     (∀ j, j < cw2Layer.inputSize →
      (Layer.backward cw2Layer [(2 : ℚ)]).2.getD j 0 =
        ∑ i in Finset.range cw2Layer.outputSize,
          [(2 : ℚ)].getD i 0 * specDeriv cw2Layer i * (cw2Layer.weights.getD i []).getD j 0) ∧
     (Layer.backward cw2Layer [(2 : ℚ)]).1.weights = cw2Layer.weights) :=
  ⟨⟨rfl, Or.inl rfl, rfl⟩,
   claim_C2 Pq cw2Layer rfl (Or.inl rfl) [(2 : ℚ)] rfl⟩

/-! ### Claim C6: paramCount -/

/-- C6: for every constructed network, `paramCount()` equals the sum over
`i` in `[0, topology.length - 2]` of
`topology[i] * topology[i+1] + topology[i+1]`. -/
theorem claim_C6 (P : Prims K) (topology : List Nat) (a o : String)
    (w0 : Nat → Nat → Nat → K) (b0 : Nat → Nat → K) :
    (NeuralNetwork.construct P topology a o w0 b0).paramCount =
      ∑ i in Finset.range (topology.length - 1),
        (topology.getD i 0 * topology.getD (i + 1) 0 + topology.getD (i + 1) 0) := by
  unfold NeuralNetwork.paramCount NeuralNetwork.construct
  rw [foldl_add_count, List.map_map, sum_map_range]
  simp only [Function.comp, Layer.construct, Nat.zero_add]
  exact Finset.sum_congr rfl fun k _ => by ring

/-! ### Claim C7: silent fallback of the registries -/

/-- C7: every activation name outside the registry resolves to sigmoid (both
in `Activations.lookup` and in the activation a `Layer` is constructed with),
and every loss name outside the registry makes `trainBatch` use
mean-squared-error; both lookups are total. -/
theorem claim_C7 (P : Prims K) :
    (∀ name, name ∉ (["sigmoid", "relu", "tanh", "linear"] : List String) →
      Activations.lookup P name = Activations.sigmoid P ∧
      ∀ (inS outS : Nat) (w0 : Nat → Nat → K) (b0 : Nat → K),
        (Layer.construct P inS outS name w0 b0).activation = Activations.sigmoid P) ∧
    (∀ name, name ∉ (["mse", "crossEntropy"] : List String) →
      Losses.lookup P name = (Losses.mse : Loss K) ∧
      ∀ (net : NeuralNetwork K) (data : List (Sample K)) (lr l2 : K),
        NeuralNetwork.trainBatch P net data lr name l2 =
          NeuralNetwork.trainBatch P net data lr "mse" l2) := by
  constructor
  · intro name h
    simp only [List.mem_cons, List.mem_singleton, not_or] at h
    obtain ⟨h1, h2, h3, h4⟩ := h
    have hl : Activations.lookup P name = Activations.sigmoid P := by
      simp [Activations.lookup, h1, h2, h3, h4]
    exact ⟨hl, fun inS outS w0 b0 => by simp [Layer.construct, hl]⟩
  · intro name h
    simp only [List.mem_cons, List.mem_singleton, not_or] at h
    obtain ⟨h1, h2⟩ := h
    have hl : Losses.lookup P name = (Losses.mse : Loss K) := by
      simp [Losses.lookup, h1, h2]
    refine ⟨hl, fun net data lr l2 => ?_⟩
    unfold NeuralNetwork.trainBatch
    rw [hl, show Losses.lookup P "mse" = (Losses.mse : Loss K) from by simp [Losses.lookup]]

/-- Witness for C7: the unregistered names are resolved to the defaults for
the concrete name `"foo"` over `ℚ`. -/
theorem claim_C7_witness :
    ("foo" ∉ (["sigmoid", "relu", "tanh", "linear"] : List String) ∧
      (Activations.lookup Pq "foo" = Activations.sigmoid Pq ∧
        ∀ (inS outS : Nat) (w0 : Nat → Nat → ℚ) (b0 : Nat → ℚ),
          (Layer.construct Pq inS outS "foo" w0 b0).activation = Activations.sigmoid Pq)) ∧
    ("bar" ∉ (["mse", "crossEntropy"] : List String) ∧
      (Losses.lookup Pq "bar" = (Losses.mse : Loss ℚ) ∧
        ∀ (net : NeuralNetwork ℚ) (data : List (Sample ℚ)) (lr l2 : ℚ),
          NeuralNetwork.trainBatch Pq net data lr "bar" l2 =
            NeuralNetwork.trainBatch Pq net data lr "mse" l2)) :=
  ⟨⟨by decide, (claim_C7 Pq).1 "foo" (by decide)⟩,
   ⟨by decide, (claim_C7 Pq).2 "bar" (by decide)⟩⟩

/-! ### Frame lemmas: what each layer operation leaves untouched -/

theorem forward_fst_core (l : Layer K) (x : List K) :
    (Layer.forward l x).1.core = l.core := rfl

theorem backward_fst_core (l : Layer K) (e : List K) :
    (Layer.backward l e).1.core = l.core := rfl

theorem zeroGrad_core (l : Layer K) : l.zeroGrad.core = l.core := rfl

theorem backward_fst_zeroGrad (l : Layer K) (e : List K) :
    (Layer.backward l e).1.zeroGrad = l.zeroGrad := rfl

theorem zeroGrad_idem (l : Layer K) : l.zeroGrad.zeroGrad = l.zeroGrad := rfl

theorem core_of_zeroGrad_eq {l₁ l₂ : Layer K} (h : l₁.zeroGrad = l₂.zeroGrad) :
    l₁.core = l₂.core := by
  have h2 := congrArg Layer.core h
  exact h2

theorem outputSize_of_core_eq {l₁ l₂ : Layer K} (h : l₁.core = l₂.core) :
    l₁.outputSize = l₂.outputSize := by
  have h2 := congrArg Layer.outputSize h
  exact h2

theorem inputSize_of_core_eq {l₁ l₂ : Layer K} (h : l₁.core = l₂.core) :
    l₁.inputSize = l₂.inputSize := by
  have h2 := congrArg Layer.inputSize h
  exact h2

theorem weights_of_core_eq {l₁ l₂ : Layer K} (h : l₁.core = l₂.core) :
    l₁.weights = l₂.weights := by
  have h2 := congrArg Layer.weights h
  exact h2

theorem biases_of_core_eq {l₁ l₂ : Layer K} (h : l₁.core = l₂.core) :
    l₁.biases = l₂.biases := by
  have h2 := congrArg Layer.biases h
  exact h2

/-- Two layers with equal `core` produce the same `forward` output and
cache, hence equal results up to their accumulators. -/
theorem forward_congr_core {l₁ l₂ : Layer K} (h : l₁.core = l₂.core) (x : List K) :
    (Layer.forward l₁ x).2 = (Layer.forward l₂ x).2 ∧
    (Layer.forward l₁ x).1.zeroGrad = (Layer.forward l₂ x).1.zeroGrad := by
  cases l₁
  cases l₂
  simp only [Layer.core, Layer.mk.injEq, eq_self_iff_true, and_true, true_and] at h
  obtain ⟨hi, ho, ha, hn, hw, hb⟩ := h
  subst hi; subst ho; subst ha; subst hn; subst hw; subst hb
  exact ⟨rfl, rfl⟩

/-- Two layers equal after `zeroGrad` produce the same `delta` values and
the same backward error vector. -/
theorem backward_congr_zeroGrad {l₁ l₂ : Layer K} (h : l₁.zeroGrad = l₂.zeroGrad)
    (e : List K) :
    Layer.delta l₁ e = Layer.delta l₂ e ∧
    (Layer.backward l₁ e).2 = (Layer.backward l₂ e).2 := by
  cases l₁
  cases l₂
  simp only [Layer.zeroGrad, Layer.mk.injEq] at h
  obtain ⟨hi, ho, ha, hn, hw, hb, _, _, hc, hd, hp⟩ := h
  subst hi; subst ho; subst ha; subst hn; subst hw; subst hb
  subst hc; subst hd; subst hp
  exact ⟨rfl, rfl⟩

theorem backward_biasGrads (l : Layer K) (e : List K) {i : Nat} (hi : i < l.outputSize) :
    (Layer.backward l e).1.biasGrads.getD i 0 =
      l.biasGrads.getD i 0 + Layer.delta l e i := by
  simp [Layer.backward, getD_range_map, hi]

theorem backward_weightGrads (l : Layer K) (e : List K) {i j : Nat}
    (hi : i < l.outputSize) (hj : j < l.inputSize) :
    ((Layer.backward l e).1.weightGrads.getD i []).getD j 0 =
      (l.weightGrads.getD i []).getD j 0 +
        Layer.delta l e i * (l.input.getD []).getD j 0 := by
  simp [Layer.backward, getD_range_map, hi, hj]

theorem zeroGrad_biasGrads (l : Layer K) (i : Nat) :
    l.zeroGrad.biasGrads.getD i 0 = 0 := by
  simp [Layer.zeroGrad, getD_range_map]

theorem zeroGrad_weightGrads (l : Layer K) (i j : Nat) :
    (l.zeroGrad.weightGrads.getD i []).getD j 0 = 0 := by
  simp only [Layer.zeroGrad, getD_range_map]
  split <;> simp [getD_range_map]

/-! ### Frame lemmas lifted to layer lists -/

theorem foldl_preserve {α β : Type} (Q : β → Prop) (step : β → α → β)
    (l : List α) (b : β) (hb : Q b)
    (hstep : ∀ acc x, Q acc → Q (step acc x)) : Q (l.foldl step b) := by
  induction l generalizing b with
  | nil => exact hb
  | cons x t ih => exact ih _ (hstep b x hb)

theorem forwardLayers_map_core (ls : List (Layer K)) (x : List K) :
    (forwardLayers ls x).1.map Layer.core = ls.map Layer.core := by
  induction ls generalizing x with
  | nil => rfl
  | cons l t ih => simp [forwardLayers, ih, forward_fst_core]

theorem forwardLayers_map_paramsOf (ls : List (Layer K)) (x : List K) :
    (forwardLayers ls x).1.map paramsOf = ls.map paramsOf := by
  induction ls generalizing x with
  | nil => rfl
  | cons l t ih =>
      simp only [forwardLayers, List.map_cons, ih]
      rfl

theorem backLayers_map_core (ls : List (Layer K)) (e : List K) :
    (backLayers ls e).1.map Layer.core = ls.map Layer.core := by
  induction ls generalizing e with
  | nil => rfl
  | cons l t ih => simp [backLayers, ih, backward_fst_core]

theorem backLayers_map_zeroGrad (ls : List (Layer K)) (e : List K) :
    (backLayers ls e).1.map Layer.zeroGrad = ls.map Layer.zeroGrad := by
  induction ls generalizing e with
  | nil => rfl
  | cons l t ih => simp [backLayers, ih, backward_fst_zeroGrad]

/-- Layer lists with equal cores produce the same forward outputs and
agree after `zeroGrad`. -/
theorem forwardLayers_congr_core :
    ∀ {ls₁ ls₂ : List (Layer K)}, ls₁.map Layer.core = ls₂.map Layer.core →
      ∀ (x : List K),
      (forwardLayers ls₁ x).2 = (forwardLayers ls₂ x).2 ∧
      (forwardLayers ls₁ x).1.map Layer.zeroGrad =
        (forwardLayers ls₂ x).1.map Layer.zeroGrad
  | [], [], _, x => ⟨rfl, rfl⟩
  | l₁ :: t₁, l₂ :: t₂, h, x => by
      simp only [List.map_cons, List.cons.injEq] at h
      have hout := (forward_congr_core h.1 x).2
      have hsnd := (forward_congr_core h.1 x).1
      have ih := forwardLayers_congr_core h.2 (Layer.forward l₁ x).2
      have ih₂ := forwardLayers_congr_core h.2 (Layer.forward l₂ x).2
      simp only [forwardLayers, List.map_cons]
      rw [hsnd] at ih ⊢
      exact ⟨ih₂.1, by rw [hout, ih₂.2]⟩

/-- Layer lists equal after `zeroGrad` backpropagate the same error. -/
theorem backLayers_congr_zeroGrad :
    ∀ {ls₁ ls₂ : List (Layer K)}, ls₁.map Layer.zeroGrad = ls₂.map Layer.zeroGrad →
      ∀ (e : List K), (backLayers ls₁ e).2 = (backLayers ls₂ e).2
  | [], [], _, e => rfl
  | l₁ :: t₁, l₂ :: t₂, h, e => by
      simp only [List.map_cons, List.cons.injEq] at h
      have ih := backLayers_congr_zeroGrad h.2 e
      simp only [backLayers]
      rw [ih, (backward_congr_zeroGrad h.1 (backLayers t₂ e).2).2]

/-! ### Claim C10: forward is read-only on parameters -/

/-- C10: `Layer.forward` changes neither the weights, biases, sizes,
activation, nor the gradient accumulators of the layer — it only overwrites
the transient cache, into which the caller's input is copied — and
`NeuralNetwork.forward` and `classifyGrid` therefore leave every layer's
parameters and accumulators unchanged. -/
theorem claim_C10 :
    (∀ (l : Layer K) (x : List K),
      (Layer.forward l x).1.weights = l.weights ∧
      (Layer.forward l x).1.biases = l.biases ∧
      (Layer.forward l x).1.weightGrads = l.weightGrads ∧
      (Layer.forward l x).1.biasGrads = l.biasGrads ∧
      (Layer.forward l x).1.inputSize = l.inputSize ∧
      (Layer.forward l x).1.outputSize = l.outputSize ∧
      (Layer.forward l x).1.activationName = l.activationName ∧
      (Layer.forward l x).1.input = some x) ∧
    (∀ (net : NeuralNetwork K) (x : List K),
      (net.forward x).1.layers.map paramsOf = net.layers.map paramsOf) ∧
    (∀ (net : NeuralNetwork K) (res : Nat) (a b c d : K),
      (net.classifyGrid res a b c d).1.layers.map paramsOf =
        net.layers.map paramsOf) := by
  refine ⟨fun l x => ⟨rfl, rfl, rfl, rfl, rfl, rfl, rfl, rfl⟩, ?_, ?_⟩
  · intro net x
    exact forwardLayers_map_paramsOf net.layers x
  · intro net res a b c d
    unfold NeuralNetwork.classifyGrid
    refine foldl_preserve
      (fun acc : NeuralNetwork K × List K =>
        acc.1.layers.map paramsOf = net.layers.map paramsOf) _ _ _ rfl ?_
    intro acc i hacc
    refine foldl_preserve
      (fun acc2 : NeuralNetwork K × List K =>
        acc2.1.layers.map paramsOf = net.layers.map paramsOf) _ _ _ hacc ?_
    intro acc2 j hacc2
    simp only [NeuralNetwork.forward]
    rw [forwardLayers_map_paramsOf, hacc2]

/-! ### Claim C5: the structural invariant -/

theorem getD_congr_of_map_eq {α β : Type} (f : α → β) {l₁ l₂ : List α}
    (h : l₁.map f = l₂.map f) (k : Nat) (d : α) :
    f (l₁.getD k d) = f (l₂.getD k d) := by
  rw [← getD_map f l₁ k d, ← getD_map f l₂ k d, h]

theorem sig_forward (l : Layer K) (x : List K) : sig (Layer.forward l x).1 = sig l := rfl

theorem sig_backward (l : Layer K) (e : List K) : sig (Layer.backward l e).1 = sig l := rfl

theorem sig_map_forwardLayers (ls : List (Layer K)) (x : List K) :
    (forwardLayers ls x).1.map sig = ls.map sig := by
  induction ls generalizing x with
  | nil => rfl
  | cons l t ih => simp only [forwardLayers, List.map_cons, ih, sig_forward]

theorem sig_map_backLayers (ls : List (Layer K)) (e : List K) :
    (backLayers ls e).1.map sig = ls.map sig := by
  induction ls generalizing e with
  | nil => rfl
  | cons l t ih => simp only [backLayers, List.map_cons, ih, sig_backward]

theorem sig_map_zeroGrad (ls : List (Layer K)) :
    (ls.map Layer.zeroGrad).map sig = ls.map sig := by
  rw [List.map_map]; rfl

theorem sig_map_applyGradients (ls : List (Layer K)) (lr l2 : K) (bs : Nat) :
    (ls.map fun l => Layer.applyGradients l lr l2 bs).map sig = ls.map sig := by
  rw [List.map_map]; rfl

/-- `StructOk` depends only on the topology, the two activation names and
the layers' structural signatures. -/
theorem structOk_congr {net net' : NeuralNetwork K}
    (ht : net'.topology = net.topology)
    (ha : net'.activationName = net.activationName)
    (ho : net'.outputActivationName = net.outputActivationName)
    (hs : net'.layers.map sig = net.layers.map sig) :
    StructOk net → StructOk net' := by
  intro h
  have hlen : net'.layers.length = net.layers.length := by
    have h2 := congrArg List.length hs
    simpa using h2
  refine ⟨by rw [hlen, ht]; exact h.1, ?_⟩
  intro k hk
  have hk' : k < net.layers.length := hlen ▸ hk
  have hsk := getD_congr_of_map_eq sig hs k defaultLayer
  simp only [sig, Prod.mk.injEq] at hsk
  obtain ⟨h1, h2, h3⟩ := hsk
  obtain ⟨g1, g2, g3⟩ := h.2 k hk'
  exact ⟨by rw [h1, ht, g1], by rw [h2, ht, g2], by rw [h3, ha, ho, hlen, g3]⟩

theorem structOk_construct (P : Prims K) (topology : List Nat) (a o : String)
    (w0 : Nat → Nat → Nat → K) (b0 : Nat → Nat → K)
    (h2 : 2 ≤ topology.length) :
    StructOk (NeuralNetwork.construct P topology a o w0 b0) := by
  constructor
  · simp [NeuralNetwork.construct]
  · intro k hk
    have hk' : k < topology.length - 1 := by
      simpa [NeuralNetwork.construct] using hk
    have hlen : (NeuralNetwork.construct P topology a o w0 b0).layers.length =
        topology.length - 1 := by simp [NeuralNetwork.construct]
    have hget : (NeuralNetwork.construct P topology a o w0 b0).layers.getD k defaultLayer =
        Layer.construct P (topology.getD k 0) (topology.getD (k + 1) 0)
          (if k + 1 = topology.length - 1 then o else a) (w0 k) (b0 k) := by
      simp only [NeuralNetwork.construct]
      rw [getD_range_map]
      simp [hk']
    refine ⟨by rw [hget]; rfl, by rw [hget]; rfl, ?_⟩
    rw [hget, hlen]
    show (if k + 1 = topology.length - 1 then o else a) = _
    have : (k + 1 = topology.length - 1) ↔ (k = topology.length - 1 - 1) := by omega
    simp only [NeuralNetwork.construct]
    by_cases hcase : k + 1 = topology.length - 1
    · rw [if_pos hcase, if_pos (by omega)]
    · rw [if_neg hcase, if_neg (by omega)]

theorem structOk_forward (net : NeuralNetwork K) (x : List K) :
    StructOk net → StructOk (net.forward x).1 :=
  structOk_congr rfl rfl rfl (sig_map_forwardLayers net.layers x)

theorem structOk_trainBatch (P : Prims K) (net : NeuralNetwork K)
    (data : List (Sample K)) (lr : K) (lt : String) (l2 : K) :
    StructOk net → StructOk (NeuralNetwork.trainBatch P net data lr lt l2).1 := by
  intro h
  unfold NeuralNetwork.trainBatch
  simp only
  have hfold := foldl_preserve
    (fun acc : NeuralNetwork K × K =>
      acc.1.topology = net.topology ∧
      acc.1.activationName = net.activationName ∧
      acc.1.outputActivationName = net.outputActivationName ∧
      acc.1.layers.map sig = net.layers.map sig)
    (fun acc sample =>
      let f := NeuralNetwork.forward acc.1 sample.input
      let tl := acc.2 + (Losses.lookup P lt).fn f.2 sample.target
      let e0 := (Losses.lookup P lt).dfn f.2 sample.target
      let b := backLayers f.1.layers e0
      ({ f.1 with layers := b.1 }, tl))
    data ({ net with layers := net.layers.map Layer.zeroGrad }, (0 : K))
    ⟨rfl, rfl, rfl, sig_map_zeroGrad net.layers⟩
    (by
      intro acc sample hacc
      refine ⟨hacc.1, hacc.2.1, hacc.2.2.1, ?_⟩
      simp only [NeuralNetwork.forward]
      rw [sig_map_backLayers, sig_map_forwardLayers]
      exact hacc.2.2.2)
  refine structOk_congr ?_ ?_ ?_ ?_ h
  · exact hfold.1
  · exact hfold.2.1
  · exact hfold.2.2.1
  · rw [sig_map_applyGradients]
    exact hfold.2.2.2

theorem structOk_train (P : Prims K) (net : NeuralNetwork K)
    (data : List (Sample K)) (epochs : Nat) (lr : K) (lt : String) (l2 : K) :
    StructOk net → StructOk (NeuralNetwork.train P net data epochs lr lt l2).1 := by
  intro h
  unfold NeuralNetwork.train
  exact foldl_preserve (fun acc : NeuralNetwork K × List K => StructOk acc.1) _ _ _ h
    (fun acc _ hacc => structOk_trainBatch P acc.1 data lr lt l2 hacc)

theorem structOk_classifyGrid (net : NeuralNetwork K) (res : Nat) (a b c d : K) :
    StructOk net → StructOk (net.classifyGrid res a b c d).1 := by
  intro h
  unfold NeuralNetwork.classifyGrid
  refine foldl_preserve (fun acc : NeuralNetwork K × List K => StructOk acc.1) _ _ _ h ?_
  intro acc i hacc
  refine foldl_preserve (fun acc2 : NeuralNetwork K × List K => StructOk acc2.1) _ _ _ hacc ?_
  intro acc2 j hacc2
  exact structOk_forward acc2.1 _ hacc2

/-- C5: a network constructed from a topology of length at least two has
`topology.length - 1` layers, layer `i` maps `topology[i]` inputs to
`topology[i+1]` outputs, every layer but the last carries the hidden
activation and the last carries the output activation; `forward`,
`trainBatch`, `train` and `classifyGrid` all preserve this structure. -/
theorem claim_C5 :
    (∀ (P : Prims K) (topology : List Nat) (a o : String)
        (w0 : Nat → Nat → Nat → K) (b0 : Nat → Nat → K),
      2 ≤ topology.length →
      StructOk (NeuralNetwork.construct P topology a o w0 b0)) ∧
    (∀ (net : NeuralNetwork K) (x : List K),
      StructOk net → StructOk (net.forward x).1) ∧
    (∀ (P : Prims K) (net : NeuralNetwork K) (data : List (Sample K))
        (lr : K) (lt : String) (l2 : K),
      StructOk net → StructOk (NeuralNetwork.trainBatch P net data lr lt l2).1) ∧
    (∀ (P : Prims K) (net : NeuralNetwork K) (data : List (Sample K))
        (epochs : Nat) (lr : K) (lt : String) (l2 : K),
      StructOk net → StructOk (NeuralNetwork.train P net data epochs lr lt l2).1) ∧
    (∀ (net : NeuralNetwork K) (res : Nat) (a b c d : K),
      StructOk net → StructOk (net.classifyGrid res a b c d).1) :=
  ⟨structOk_construct, structOk_forward, structOk_trainBatch, structOk_train,
   structOk_classifyGrid⟩

/-- Witness for C5: the invariant holds for the concrete constructed network
`cwNet` and is preserved by a concrete `forward`, `trainBatch`, `train` and
`classifyGrid` call. -/
theorem claim_C5_witness :
    2 ≤ ([2, 2, 1] : List Nat).length ∧
    StructOk cwNet ∧
    StructOk (cwNet.forward [1, 0]).1 ∧
    StructOk (NeuralNetwork.trainBatch Pq cwNet [⟨[1, 0], [1]⟩] 1 "mse" 0).1 ∧
    StructOk (NeuralNetwork.train Pq cwNet [⟨[1, 0], [1]⟩] 2 1 "mse" 0).1 ∧
    StructOk (cwNet.classifyGrid 2 0 1 0 1).1 := by
  have h1 := (@claim_C5 ℚ _).1 Pq [2, 2, 1] "tanh" "sigmoid"
    (fun _ _ _ => 1) (fun _ _ => 0) (by decide)
  exact ⟨by decide, h1,
    (@claim_C5 ℚ _).2.1 cwNet [1, 0] h1,
    (@claim_C5 ℚ _).2.2.1 Pq cwNet [⟨[1, 0], [1]⟩] 1 "mse" 0 h1,
    (@claim_C5 ℚ _).2.2.2.1 Pq cwNet [⟨[1, 0], [1]⟩] 2 1 "mse" 0 h1,
    (@claim_C5 ℚ _).2.2.2.2 cwNet 2 0 1 0 1 h1⟩

/-! ### Claims C8 and C9: the dataset generators -/

theorem length_flatMap_const {β : Type} (f : Nat → List β) (n c : Nat)
    (h : ∀ i, (f i).length = c) : ((List.range n).flatMap f).length = n * c := by
  rw [List.length_flatMap]
  have h2 : List.map (List.length ∘ f) (List.range n) =
      List.map (fun _ => c) (List.range n) :=
    List.map_congr_left (fun a _ => h a)
  rw [h2, sum_map_range]
  simp [Finset.sum_const, Nat.smul_one_eq_cast]

theorem floor_coord_nonneg [FloorRing K] {r : K} (h0 : 0 ≤ r) :
    0 ≤ ⌊r * 8 - 4 + 4⌋ := by
  refine Int.floor_nonneg.mpr ?_
  have h8 : (0 : K) ≤ r * 8 := mul_nonneg h0 (by norm_num)
  linarith

/-- C8: `circle(n)`, `xor(n)` and `checkerboard(n)` return exactly `n`
samples, the class-balanced `spiral(n)` and `gaussian(n)` return
`2 * floor(n/2)` samples, and every sample has a 2-element input and a
1-element target holding 0 or 1. -/
theorem claim_C8 [FloorRing K] (sinK cosK : K → K) (piK : K)
    (rand randn : Nat → K) (n : Nat)
    (hrand : ∀ k, 0 ≤ rand k ∧ rand k < 1) :
    ((Datasets.circle sinK cosK piK rand n).length = n ∧
      ∀ s ∈ Datasets.circle sinK cosK piK rand n, sampleShapeOk s) ∧
    ((Datasets.xor rand n).length = n ∧
      ∀ s ∈ Datasets.xor rand n, sampleShapeOk s) ∧
    ((Datasets.spiral sinK cosK piK rand n).length = 2 * (n / 2) ∧
      ∀ s ∈ Datasets.spiral sinK cosK piK rand n, sampleShapeOk s) ∧
    ((Datasets.gaussian randn n).length = 2 * (n / 2) ∧
      ∀ s ∈ Datasets.gaussian randn n, sampleShapeOk s) ∧
    ((Datasets.checkerboard rand n).length = n ∧
      ∀ s ∈ Datasets.checkerboard rand n, sampleShapeOk s) := by
  refine ⟨⟨by simp [Datasets.circle], ?_⟩, ⟨by simp [Datasets.xor], ?_⟩,
    ⟨?_, ?_⟩, ⟨?_, ?_⟩, ⟨by simp [Datasets.checkerboard], ?_⟩⟩
  · intro s hs
    simp only [Datasets.circle, List.mem_map] at hs
    obtain ⟨i, _, rfl⟩ := hs
    refine ⟨rfl, rfl, ?_⟩
    simp only [List.getD_cons_zero]
    by_cases h : rand (5 * i + 1) < 1 / 2
    · exact Or.inr (if_pos h)
    · exact Or.inl (if_neg h)
  · intro s hs
    simp only [Datasets.xor, List.mem_map] at hs
    obtain ⟨i, _, rfl⟩ := hs
    refine ⟨rfl, rfl, ?_⟩
    simp only [List.getD_cons_zero]
    by_cases h : (0 < rand (4 * i) * 6 - 3) ↔ (0 < rand (4 * i + 1) * 6 - 3)
    · exact Or.inl (if_pos h)
    · exact Or.inr (if_neg h)
  · simp only [Datasets.spiral]
    rw [length_flatMap_const _ 2 (n / 2) (fun c => by simp)]
  · intro s hs
    simp only [Datasets.spiral, List.mem_flatMap, List.mem_map, List.mem_range] at hs
    obtain ⟨c, hc, i, _, rfl⟩ := hs
    refine ⟨rfl, rfl, ?_⟩
    have : c = 0 ∨ c = 1 := by omega
    rcases this with h | h <;> simp [h]
  · simp only [Datasets.gaussian]
    rw [length_flatMap_const _ (n / 2) 2 (fun i => by simp)]
    omega
  · intro s hs
    simp only [Datasets.gaussian, List.mem_flatMap, List.mem_range] at hs
    obtain ⟨i, _, hm⟩ := hs
    simp only [List.mem_cons, List.mem_singleton] at hm
    rcases hm with rfl | rfl | h
    · exact ⟨rfl, rfl, Or.inr rfl⟩
    · exact ⟨rfl, rfl, Or.inl rfl⟩
    · cases h
  · intro s hs
    simp only [Datasets.checkerboard, List.mem_map] at hs
    obtain ⟨i, _, rfl⟩ := hs
    refine ⟨rfl, rfl, ?_⟩
    have h0 : 0 ≤ ⌊rand (2 * i) * 8 - 4 + 4⌋ + ⌊rand (2 * i + 1) * 8 - 4 + 4⌋ :=
      add_nonneg (floor_coord_nonneg (hrand (2 * i)).1)
        (floor_coord_nonneg (hrand (2 * i + 1)).1)
    show ((Int.tmod _ 2 : Int) : K) = 0 ∨ ((Int.tmod _ 2 : Int) : K) = 1
    rw [Int.tmod_eq_emod h0 (by norm_num)]
    rcases Int.emod_two_eq_zero_or_one
        (⌊rand (2 * i) * 8 - 4 + 4⌋ + ⌊rand (2 * i + 1) * 8 - 4 + 4⌋) with h | h <;>
      rw [h] <;> simp

/-- Witness for C8: the five generators evaluated over `ℚ` with the constant
random stream `1/2` and `n = 2`. -/
theorem claim_C8_witness :
    (∀ k : Nat, 0 ≤ ((1 : ℚ) / 2) ∧ ((1 : ℚ) / 2) < 1) ∧
    (((Datasets.circle (fun _ => 0) (fun _ => 0) 0 (fun _ => (1 : ℚ) / 2) 2).length = 2 ∧
      ∀ s ∈ Datasets.circle (fun _ => 0) (fun _ => 0) 0 (fun _ => (1 : ℚ) / 2) 2,
        sampleShapeOk s) ∧
    ((Datasets.xor (fun _ => (1 : ℚ) / 2) 2).length = 2 ∧
      ∀ s ∈ Datasets.xor (fun _ => (1 : ℚ) / 2) 2, sampleShapeOk s) ∧
    ((Datasets.spiral (fun _ => 0) (fun _ => 0) 0 (fun _ => (1 : ℚ) / 2) 2).length = 2 * (2 / 2) ∧
      ∀ s ∈ Datasets.spiral (fun _ => 0) (fun _ => 0) 0 (fun _ => (1 : ℚ) / 2) 2,
        sampleShapeOk s) ∧
    ((Datasets.gaussian (fun _ => (0 : ℚ)) 2).length = 2 * (2 / 2) ∧
      ∀ s ∈ Datasets.gaussian (fun _ => (0 : ℚ)) 2, sampleShapeOk s) ∧
    ((Datasets.checkerboard (fun _ => (1 : ℚ) / 2) 2).length = 2 ∧
      ∀ s ∈ Datasets.checkerboard (fun _ => (1 : ℚ) / 2) 2, sampleShapeOk s)) :=
  ⟨fun _ => ⟨by norm_num, by norm_num⟩,
   claim_C8 (fun _ => 0) (fun _ => 0) 0 (fun _ => (1 : ℚ) / 2) (fun _ => (0 : ℚ)) 2
     (fun _ => ⟨by norm_num, by norm_num⟩)⟩

/-- C9: `xor(n)` labels equal the XOR rule `(x>0) != (y>0)` evaluated on the
pre-jitter coordinates (the jitter is then added to the coordinates only),
and every `checkerboard(n)` sample's label equals the parity rule
`(floor(x+4) + floor(y+4)) % 2` of its own coordinates. -/
theorem claim_C9 [FloorRing K] (rand : Nat → K) (n : Nat)
    (hrand : ∀ k, 0 ≤ rand k ∧ rand k < 1) :
    (∀ i, i < n →
      ((Datasets.xor rand n).getD i ⟨[], []⟩).target =
        [if (0 < rand (4 * i) * 6 - 3) ↔ (0 < rand (4 * i + 1) * 6 - 3)
         then (0 : K) else 1] ∧
      ((Datasets.xor rand n).getD i ⟨[], []⟩).input =
        [rand (4 * i) * 6 - 3 + (rand (4 * i + 2) - 1 / 2) * (1 / 2),
         rand (4 * i + 1) * 6 - 3 + (rand (4 * i + 3) - 1 / 2) * (1 / 2)]) ∧
    (∀ s ∈ Datasets.checkerboard rand n,
      s.target =
        [(((⌊s.input.getD 0 0 + 4⌋ + ⌊s.input.getD 1 0 + 4⌋) % 2 : Int) : K)]) := by
  constructor
  · intro i hi
    have hget : (Datasets.xor rand n).getD i ⟨[], []⟩ =
        { input := [rand (4 * i) * 6 - 3 + (rand (4 * i + 2) - 1 / 2) * (1 / 2),
                    rand (4 * i + 1) * 6 - 3 + (rand (4 * i + 3) - 1 / 2) * (1 / 2)],
          target := [if (0 < rand (4 * i) * 6 - 3) ↔ (0 < rand (4 * i + 1) * 6 - 3)
                     then (0 : K) else 1] } := by
      simp only [Datasets.xor]
      rw [getD_range_map]
      simp [hi]
    rw [hget]
    exact ⟨rfl, rfl⟩
  · intro s hs
    simp only [Datasets.checkerboard, List.mem_map] at hs
    obtain ⟨i, _, rfl⟩ := hs
    have h0 : 0 ≤ ⌊rand (2 * i) * 8 - 4 + 4⌋ + ⌊rand (2 * i + 1) * 8 - 4 + 4⌋ :=
      add_nonneg (floor_coord_nonneg (hrand (2 * i)).1)
        (floor_coord_nonneg (hrand (2 * i + 1)).1)
    show [((Int.tmod _ 2 : Int) : K)] = _
    rw [Int.tmod_eq_emod h0 (by norm_num)]
    rfl

/-- Witness for C9: the label rules evaluated over `ℚ` with the constant
random stream `1/2` and `n = 2`. -/
theorem claim_C9_witness :
    (∀ k : Nat, 0 ≤ ((1 : ℚ) / 2) ∧ ((1 : ℚ) / 2) < 1) ∧
    ((∀ i, i < 2 →
      ((Datasets.xor (fun _ => (1 : ℚ) / 2) 2).getD i ⟨[], []⟩).target =
        [if (0 < ((1 : ℚ) / 2) * 6 - 3) ↔ (0 < ((1 : ℚ) / 2) * 6 - 3)
         then (0 : ℚ) else 1] ∧
      ((Datasets.xor (fun _ => (1 : ℚ) / 2) 2).getD i ⟨[], []⟩).input =
        [((1 : ℚ) / 2) * 6 - 3 + (((1 : ℚ) / 2) - 1 / 2) * (1 / 2),
         ((1 : ℚ) / 2) * 6 - 3 + (((1 : ℚ) / 2) - 1 / 2) * (1 / 2)]) ∧
    (∀ s ∈ Datasets.checkerboard (fun _ => (1 : ℚ) / 2) 2,
      s.target =
        [(((⌊s.input.getD 0 0 + 4⌋ + ⌊s.input.getD 1 0 + 4⌋) % 2 : Int) : ℚ)])) :=
  ⟨fun _ => ⟨by norm_num, by norm_num⟩,
   claim_C9 (fun _ => (1 : ℚ) / 2) 2 (fun _ => ⟨by norm_num, by norm_num⟩)⟩

/-! ### Claim C4: classifyGrid -/

theorem predictLayers_nil (x : List K) : predictLayers [] x = x := rfl

theorem predictLayers_cons (l : Layer K) (t : List (Layer K)) (x : List K) :
    predictLayers (l :: t) x = predictLayers t (Layer.forward l x).2 := rfl

theorem predictLayers_congr_core {ls₁ ls₂ : List (Layer K)}
    (h : ls₁.map Layer.core = ls₂.map Layer.core) (x : List K) :
    predictLayers ls₁ x = predictLayers ls₂ x :=
  (forwardLayers_congr_core h x).1

/-- A state-threading fold that appends `emit x` for each element while
keeping the layer cores unchanged. -/
theorem foldl_emit {α : Type} (net0 : NeuralNetwork K)
    (step : NeuralNetwork K × List K → α → NeuralNetwork K × List K)
    (emit : α → List K)
    (hstep : ∀ acc x, acc.1.layers.map Layer.core = net0.layers.map Layer.core →
      (step acc x).1.layers.map Layer.core = net0.layers.map Layer.core ∧
      (step acc x).2 = acc.2 ++ emit x) :
    ∀ (l : List α) (m : NeuralNetwork K) (L : List K),
      m.layers.map Layer.core = net0.layers.map Layer.core →
      (l.foldl step (m, L)).1.layers.map Layer.core = net0.layers.map Layer.core ∧
      (l.foldl step (m, L)).2 = L ++ l.flatMap emit := by
  intro l
  induction l with
  | nil => intro m L hm; exact ⟨hm, by simp⟩
  | cons x xs ih =>
      intro m L hm
      have hs := hstep (m, L) x hm
      have ih2 := ih (step (m, L) x).1 (step (m, L) x).2 hs.1
      rw [List.foldl_cons]
      exact ⟨ih2.1, by rw [ih2.2, hs.2, List.flatMap_cons, List.append_assoc]⟩

/-- The grid buffer of `classifyGrid` equals the pure cell-center
predictions, and the call leaves the layer cores unchanged. -/
theorem classifyGrid_eq_pure (net : NeuralNetwork K) (res : Nat)
    (xMin xMax yMin yMax : K) :
    (net.classifyGrid res xMin xMax yMin yMax).2 =
      classifyGridPure net res xMin xMax yMin yMax ∧
    (net.classifyGrid res xMin xMax yMin yMax).1.layers.map Layer.core =
      net.layers.map Layer.core := by
  unfold NeuralNetwork.classifyGrid classifyGridPure
  simp only
  have hinner : ∀ (i : Nat) (acc : NeuralNetwork K × List K),
      acc.1.layers.map Layer.core = net.layers.map Layer.core →
      ((List.range res).foldl (fun (acc2 : NeuralNetwork K × List K) (j : Nat) =>
          let x := xMin + (j : K) * ((xMax - xMin) / (res : K)) +
            ((xMax - xMin) / (res : K)) / 2
          let y := yMin + (i : K) * ((yMax - yMin) / (res : K)) +
            ((yMax - yMin) / (res : K)) / 2
          let f := NeuralNetwork.forward acc2.1 [x, y]
          (f.1, acc2.2 ++ [f.2.getD 0 0])) acc).1.layers.map Layer.core =
        net.layers.map Layer.core ∧
      ((List.range res).foldl (fun (acc2 : NeuralNetwork K × List K) (j : Nat) =>
          let x := xMin + (j : K) * ((xMax - xMin) / (res : K)) +
            ((xMax - xMin) / (res : K)) / 2
          let y := yMin + (i : K) * ((yMax - yMin) / (res : K)) +
            ((yMax - yMin) / (res : K)) / 2
          let f := NeuralNetwork.forward acc2.1 [x, y]
          (f.1, acc2.2 ++ [f.2.getD 0 0])) acc).2 =
        acc.2 ++ (List.range res).flatMap (fun j =>
          [(predictLayers net.layers
            [xMin + (j : K) * ((xMax - xMin) / (res : K)) +
              ((xMax - xMin) / (res : K)) / 2,
             yMin + (i : K) * ((yMax - yMin) / (res : K)) +
              ((yMax - yMin) / (res : K)) / 2]).getD 0 0]) := by
    intro i acc hacc
    refine foldl_emit net
      (fun (acc2 : NeuralNetwork K × List K) (j : Nat) =>
        let x := xMin + (j : K) * ((xMax - xMin) / (res : K)) +
          ((xMax - xMin) / (res : K)) / 2
        let y := yMin + (i : K) * ((yMax - yMin) / (res : K)) +
          ((yMax - yMin) / (res : K)) / 2
        let f := NeuralNetwork.forward acc2.1 [x, y]
        (f.1, acc2.2 ++ [f.2.getD 0 0]))
      (fun j =>
        [(predictLayers net.layers
          [xMin + (j : K) * ((xMax - xMin) / (res : K)) +
            ((xMax - xMin) / (res : K)) / 2,
           yMin + (i : K) * ((yMax - yMin) / (res : K)) +
            ((yMax - yMin) / (res : K)) / 2]).getD 0 0])
      ?_ (List.range res) acc.1 acc.2 hacc
    intro acc2 j hacc2
    constructor
    · show (forwardLayers acc2.1.layers _).1.map Layer.core = _
      rw [forwardLayers_map_core]
      exact hacc2
    · show acc2.2 ++ [(forwardLayers acc2.1.layers _).2.getD 0 0] = _
      rw [show (forwardLayers acc2.1.layers
          [xMin + (j : K) * ((xMax - xMin) / (res : K)) +
            ((xMax - xMin) / (res : K)) / 2,
           yMin + (i : K) * ((yMax - yMin) / (res : K)) +
            ((yMax - yMin) / (res : K)) / 2]).2 =
        predictLayers net.layers
          [xMin + (j : K) * ((xMax - xMin) / (res : K)) +
            ((xMax - xMin) / (res : K)) / 2,
           yMin + (i : K) * ((yMax - yMin) / (res : K)) +
            ((yMax - yMin) / (res : K)) / 2] from
        predictLayers_congr_core hacc2 _]
  have hout := foldl_emit net _ _
    (fun acc i hacc => by
      have h := hinner i acc hacc
      exact ⟨h.1, h.2⟩)
    (List.range res) net [] rfl
  refine ⟨hout.2.trans ?_, hout.1⟩
  rw [List.nil_append]
  refine congrArg (List.flatMap (List.range res)) (funext fun i => ?_)
  exact (List.map_eq_bind _ (List.range res)).symm

/-- Indexing a flat row-major grid: entry `i * w + j` of a concatenation of
rows of width `w` is entry `j` of row `i`. -/
theorem getD_flatMap {α β : Type} (d : β) :
    ∀ (l : List α) (f : α → List β) (w : Nat), (∀ x, (f x).length = w) →
    ∀ (i j : Nat) (hi : i < l.length), j < w →
    (l.flatMap f).getD (i * w + j) d = (f (l.get ⟨i, hi⟩)).getD j d := by
  intro l
  induction l with
  | nil => intro f w hw i j hi; exact absurd hi (Nat.not_lt_zero i)
  | cons x xs ih =>
      intro f w hw i j hi hj
      rw [List.flatMap_cons]
      cases i with
      | zero =>
          have hj' : j < (f x).length := by rw [hw]; exact hj
          rw [Nat.zero_mul, Nat.zero_add, List.getD_append _ _ _ _ hj']
          rfl
      | succ i2 =>
          have hlen : (f x).length ≤ (i2 + 1) * w + j := by
            rw [hw]
            calc w ≤ (i2 + 1) * w := Nat.le_mul_of_pos_left w (Nat.succ_pos i2)
            _ ≤ (i2 + 1) * w + j := Nat.le_add_right _ _
          rw [List.getD_append_right _ _ _ _ hlen]
          have harith : (i2 + 1) * w + j - (f x).length = i2 * w + j := by
            rw [hw]
            have : (i2 + 1) * w = i2 * w + w := by ring
            omega
          rw [harith]
          exact ih f w hw i2 j (Nat.lt_of_succ_lt_succ hi) hj

/-- A non-empty pipeline's prediction is the last layer's `forward` applied
to the prediction of the pipeline without its last layer. -/
theorem predictLayers_getLast :
    ∀ (ls : List (Layer K)) (hne : ls ≠ []) (x : List K),
    predictLayers ls x =
      (Layer.forward (ls.getLast hne) (predictLayers ls.dropLast x)).2
  | [l], _, x => rfl
  | l :: l2 :: t, _, x => by
      have ih := predictLayers_getLast (l2 :: t) (List.cons_ne_nil l2 t)
        ((Layer.forward l x).2)
      rw [predictLayers_cons, ih]
      rw [List.getLast_cons (List.cons_ne_nil l2 t)]
      rfl

theorem forward_out_getD (l : Layer K) (v : List K) (h : 0 < l.outputSize) :
    (Layer.forward l v).2.getD 0 0 =
      l.activation.fn (l.biases.getD 0 0 +
        ∑ j in Finset.range l.inputSize,
          (l.weights.getD 0 []).getD j 0 * v.getD j 0) := by
  simp only [Layer.forward, List.map_map]
  rw [getD_range_map]
  simp [h]

theorem sigmoid_fn_bounds (P : Prims K) (hexp : ∀ t, 0 < P.exp t) (z : K) :
    0 ≤ (Activations.sigmoid P).fn z ∧ (Activations.sigmoid P).fn z ≤ 1 := by
  simp only [Activations.sigmoid]
  have hE := hexp (-(max (-500) (min 500 z)))
  constructor
  · exact div_nonneg zero_le_one (by linarith)
  · rw [div_le_one (by linarith)]
    linarith

/-- C4: `classifyGrid(resolution, ...)` returns exactly
`resolution * resolution` values; the value stored at `i * resolution + j`
is the first output dimension of `forward([x, y])` at the center of grid
cell `(i, j)`; and when the output layer's activation is sigmoid (and the
exponential is positive, as `Math.exp` is), every returned value lies in
`[0, 1]`. -/
theorem claim_C4 (P : Prims K) (net : NeuralNetwork K) (res : Nat)
    (xMin xMax yMin yMax : K) :
    (net.classifyGrid res xMin xMax yMin yMax).2 =
      classifyGridPure net res xMin xMax yMin yMax ∧
    (net.classifyGrid res xMin xMax yMin yMax).2.length = res * res ∧
    (∀ i j, i < res → j < res →
      (net.classifyGrid res xMin xMax yMin yMax).2.getD (i * res + j) 0 =
        (predictLayers net.layers
          [xMin + (j : K) * ((xMax - xMin) / (res : K)) +
            ((xMax - xMin) / (res : K)) / 2,
           yMin + (i : K) * ((yMax - yMin) / (res : K)) +
            ((yMax - yMin) / (res : K)) / 2]).getD 0 0) ∧
    (∀ (hne : net.layers ≠ []),
      (net.layers.getLast hne).activation = Activations.sigmoid P →
      0 < (net.layers.getLast hne).outputSize →
      (∀ t, 0 < P.exp t) →
      ∀ v ∈ (net.classifyGrid res xMin xMax yMin yMax).2, 0 ≤ v ∧ v ≤ 1) := by
  have hpure := classifyGrid_eq_pure net res xMin xMax yMin yMax
  refine ⟨hpure.1, ?_, ?_, ?_⟩
  · rw [hpure.1]
    unfold classifyGridPure
    simp only
    rw [length_flatMap_const _ res res (fun i => by simp)]
  · intro i j hi hj
    rw [hpure.1]
    unfold classifyGridPure
    simp only
    rw [getD_flatMap 0 (List.range res) _ res (fun x => by simp) i j
      (by simpa using hi) hj]
    rw [getD_range_map, if_pos hj, List.get_range]
  · intro hne hsig hout hexp v hv
    rw [hpure.1] at hv
    unfold classifyGridPure at hv
    simp only [List.mem_flatMap, List.mem_map, List.mem_range] at hv
    obtain ⟨i, _, j, _, rfl⟩ := hv
    rw [predictLayers_getLast net.layers hne]
    rw [forward_out_getD _ _ hout, hsig]
    exact sigmoid_fn_bounds P hexp _

/-- Witness for C4: the concrete network `cwNet` (sigmoid output layer) on a
concrete 2×2 grid over `ℚ`. -/
theorem claim_C4_witness :
    cwNet.layers ≠ [] ∧
    ((cwNet.classifyGrid 2 0 1 0 1).2.length = 2 * 2) ∧
    ∀ (hne : cwNet.layers ≠ []),
      (cwNet.layers.getLast hne).activation = Activations.sigmoid Pq ∧
      0 < (cwNet.layers.getLast hne).outputSize ∧
      (∀ t : ℚ, 0 < Pq.exp t) ∧
      ∀ v ∈ (cwNet.classifyGrid 2 0 1 0 1).2, 0 ≤ v ∧ v ≤ 1 := by
  have h := claim_C4 Pq cwNet 2 0 1 0 1
  have hne : cwNet.layers ≠ [] := by
    simp [cwNet, NeuralNetwork.construct]
  refine ⟨hne, h.2.1, fun hne2 => ?_⟩
  have hsig : (cwNet.layers.getLast hne2).activation = Activations.sigmoid Pq := rfl
  have ho1 : (cwNet.layers.getLast hne2).outputSize = 1 := rfl
  have hout : 0 < (cwNet.layers.getLast hne2).outputSize := by
    rw [ho1]
    exact one_pos
  exact ⟨hsig, hout, fun t => one_pos,
    h.2.2.2 hne2 hsig hout (fun t => one_pos)⟩

/-! ### Claim C1: trainBatch -/

theorem zeroGrad_defaultLayer : (defaultLayer : Layer K).zeroGrad = defaultLayer := rfl

theorem core_defaultLayer : (defaultLayer : Layer K).core = defaultLayer := rfl

theorem core_map_zeroGrad (ls : List (Layer K)) :
    (ls.map Layer.zeroGrad).map Layer.core = ls.map Layer.core := by
  rw [List.map_map]
  exact List.map_congr_left fun a _ => zeroGrad_core a

theorem map_zeroGrad_idem (ls : List (Layer K)) :
    (ls.map Layer.zeroGrad).map Layer.zeroGrad = ls.map Layer.zeroGrad := by
  rw [List.map_map]
  exact List.map_congr_left fun a _ => zeroGrad_idem a

theorem bgAt_map_zeroGrad (ls : List (Layer K)) (k i : Nat) :
    bgAt (ls.map Layer.zeroGrad) k i = 0 := by
  unfold bgAt
  rw [show (ls.map Layer.zeroGrad).getD k defaultLayer =
    (ls.getD k defaultLayer).zeroGrad from getD_map Layer.zeroGrad ls k defaultLayer]
  exact zeroGrad_biasGrads _ i

theorem wgAt_map_zeroGrad (ls : List (Layer K)) (k i j : Nat) :
    wgAt (ls.map Layer.zeroGrad) k i j = 0 := by
  unfold wgAt
  rw [show (ls.map Layer.zeroGrad).getD k defaultLayer =
    (ls.getD k defaultLayer).zeroGrad from getD_map Layer.zeroGrad ls k defaultLayer]
  exact zeroGrad_weightGrads _ i j

theorem bgAt_of_paramsOf_map_eq {ls₁ ls₂ : List (Layer K)}
    (h : ls₁.map paramsOf = ls₂.map paramsOf) (k i : Nat) :
    bgAt ls₁ k i = bgAt ls₂ k i := by
  have h2 := getD_congr_of_map_eq paramsOf h k defaultLayer
  unfold paramsOf at h2
  simp only [Prod.mk.injEq] at h2
  unfold bgAt
  rw [h2.2.2.2]

theorem wgAt_of_paramsOf_map_eq {ls₁ ls₂ : List (Layer K)}
    (h : ls₁.map paramsOf = ls₂.map paramsOf) (k i j : Nat) :
    wgAt ls₁ k i j = wgAt ls₂ k i j := by
  have h2 := getD_congr_of_map_eq paramsOf h k defaultLayer
  unfold paramsOf at h2
  simp only [Prod.mk.injEq] at h2
  unfold wgAt
  rw [h2.2.2.1]

theorem wAt_of_core_map_eq {ls₁ ls₂ : List (Layer K)}
    (h : ls₁.map Layer.core = ls₂.map Layer.core) (k i j : Nat) :
    wAt ls₁ k i j = wAt ls₂ k i j := by
  have h2 := getD_congr_of_map_eq Layer.core h k defaultLayer
  unfold wAt
  rw [weights_of_core_eq h2]

theorem bAt_of_core_map_eq {ls₁ ls₂ : List (Layer K)}
    (h : ls₁.map Layer.core = ls₂.map Layer.core) (k i : Nat) :
    bAt ls₁ k i = bAt ls₂ k i := by
  have h2 := getD_congr_of_map_eq Layer.core h k defaultLayer
  unfold bAt
  rw [biases_of_core_eq h2]

theorem outAt_of_core_map_eq {ls₁ ls₂ : List (Layer K)}
    (h : ls₁.map Layer.core = ls₂.map Layer.core) (k : Nat) :
    (ls₁.getD k defaultLayer).outputSize = (ls₂.getD k defaultLayer).outputSize :=
  outputSize_of_core_eq (getD_congr_of_map_eq Layer.core h k defaultLayer)

theorem inAt_of_core_map_eq {ls₁ ls₂ : List (Layer K)}
    (h : ls₁.map Layer.core = ls₂.map Layer.core) (k : Nat) :
    (ls₁.getD k defaultLayer).inputSize = (ls₂.getD k defaultLayer).inputSize :=
  inputSize_of_core_eq (getD_congr_of_map_eq Layer.core h k defaultLayer)

theorem length_of_core_map_eq {ls₁ ls₂ : List (Layer K)}
    (h : ls₁.map Layer.core = ls₂.map Layer.core) :
    ls₁.length = ls₂.length := by
  have h2 := congrArg List.length h
  simpa using h2

theorem applyGradients_bAt (l : Layer K) (lr l2 : K) (bs : Nat) {i : Nat}
    (hi : i < l.outputSize) :
    (Layer.applyGradients l lr l2 bs).biases.getD i 0 =
      l.biases.getD i 0 - lr * (l.biasGrads.getD i 0 / (bs : K)) := by
  simp [Layer.applyGradients, getD_range_map, hi]

theorem applyGradients_wAt (l : Layer K) (lr l2 : K) (bs : Nat) {i j : Nat}
    (hi : i < l.outputSize) (hj : j < l.inputSize) :
    ((Layer.applyGradients l lr l2 bs).weights.getD i []).getD j 0 =
      (l.weights.getD i []).getD j 0 -
        lr * ((l.weightGrads.getD i []).getD j 0 / (bs : K) +
          l2 * (l.weights.getD i []).getD j 0) := by
  simp [Layer.applyGradients, getD_range_map, hi, hj]

theorem applyGradients_defaultLayer (lr l2 : K) (bs : Nat) :
    Layer.applyGradients (defaultLayer : Layer K) lr l2 bs = defaultLayer := rfl

/-- Backpropagation splits additively: the accumulators after a `backLayers`
call are the accumulators before it plus what the same call on the
zero-accumulator version of the layers produces. -/
theorem backLayers_grad_split :
    ∀ (ls : List (Layer K)) (e : List K) (k i j : Nat), k < ls.length →
      (i < (ls.getD k defaultLayer).outputSize →
        bgAt (backLayers ls e).1 k i =
          bgAt ls k i + bgAt (backLayers (ls.map Layer.zeroGrad) e).1 k i) ∧
      (i < (ls.getD k defaultLayer).outputSize →
        j < (ls.getD k defaultLayer).inputSize →
        wgAt (backLayers ls e).1 k i j =
          wgAt ls k i j + wgAt (backLayers (ls.map Layer.zeroGrad) e).1 k i j) := by
  intro ls
  induction ls with
  | nil => intro e k i j hk; exact absurd hk (Nat.not_lt_zero k)
  | cons l t ih =>
      intro e k i j hk
      have herr : (backLayers (t.map Layer.zeroGrad) e).2 = (backLayers t e).2 :=
        backLayers_congr_zeroGrad (map_zeroGrad_idem t) e
      cases k with
      | zero =>
          simp only [List.getD_cons_zero, backLayers, List.map_cons]
          constructor
          · intro hi
            unfold bgAt
            simp only [List.getD_cons_zero]
            rw [backward_biasGrads _ _ hi, herr,
              backward_biasGrads _ _ (show i < l.zeroGrad.outputSize from hi),
              zeroGrad_biasGrads,
              (backward_congr_zeroGrad (zeroGrad_idem l) (backLayers t e).2).1]
            ring
          · intro hi hj
            unfold wgAt
            simp only [List.getD_cons_zero]
            rw [backward_weightGrads _ _ hi hj, herr,
              backward_weightGrads _ _ (show i < l.zeroGrad.outputSize from hi)
                (show j < l.zeroGrad.inputSize from hj),
              zeroGrad_weightGrads,
              (backward_congr_zeroGrad (zeroGrad_idem l) (backLayers t e).2).1,
              show l.zeroGrad.input = l.input from rfl]
            ring
      | succ k2 =>
          have h2 := ih e k2 i j (Nat.lt_of_succ_lt_succ hk)
          simp only [List.getD_cons_succ] at h2 ⊢
          simp only [backLayers, List.map_cons]
          constructor
          · intro hi
            unfold bgAt
            simp only [List.getD_cons_succ]
            exact h2.1 hi
          · intro hi hj
            unfold wgAt
            simp only [List.getD_cons_succ]
            exact h2.2 hi hj

/-- `trainBatch` written through `nnStep` (definitional unfolding). -/
theorem trainBatch_eq_nnStep (P : Prims K) (net : NeuralNetwork K)
    (data : List (Sample K)) (lr : K) (lossT : String) (l2 : K) :
    NeuralNetwork.trainBatch P net data lr lossT l2 =
      (({ (data.foldl (nnStep P lossT)
            ({ net with layers := net.layers.map Layer.zeroGrad }, (0 : K))).1 with
          layers := (data.foldl (nnStep P lossT)
            ({ net with layers := net.layers.map Layer.zeroGrad }, (0 : K))).1.layers.map
              fun l => Layer.applyGradients l lr l2 data.length,
          loss := (((data.foldl (nnStep P lossT)
            ({ net with layers := net.layers.map Layer.zeroGrad }, (0 : K))).2
              / (data.length : K)) : WithTop K),
          epoch := (data.foldl (nnStep P lossT)
            ({ net with layers := net.layers.map Layer.zeroGrad }, (0 : K))).1.epoch + 1 },
        (data.foldl (nnStep P lossT)
          ({ net with layers := net.layers.map Layer.zeroGrad }, (0 : K))).2
            / (data.length : K))) := rfl

/-- The invariant of the `trainBatch` sample loop: layer cores are unchanged,
the running total accumulates the pure per-sample losses of the pre-update
network, and each accumulator grows by the sum of the per-sample gradient
contributions. -/
theorem trainLoop_spec (P : Prims K) (lossT : String) (net : NeuralNetwork K) :
    ∀ (ds : List (Sample K)) (m : NeuralNetwork K) (t : K),
      m.layers.map Layer.core = net.layers.map Layer.core →
      (ds.foldl (nnStep P lossT) (m, t)).1.layers.map Layer.core =
          net.layers.map Layer.core ∧
      (ds.foldl (nnStep P lossT) (m, t)).2 =
          t + (ds.map fun s =>
            (Losses.lookup P lossT).fn (predictLayers net.layers s.input) s.target).sum ∧
      (∀ k i, k < net.layers.length →
        i < (net.layers.getD k defaultLayer).outputSize →
        bgAt (ds.foldl (nnStep P lossT) (m, t)).1.layers k i =
          bgAt m.layers k i +
            (ds.map fun s =>
              bgAt (gradLayers (Losses.lookup P lossT) net.layers s) k i).sum) ∧
      (∀ k i j, k < net.layers.length →
        i < (net.layers.getD k defaultLayer).outputSize →
        j < (net.layers.getD k defaultLayer).inputSize →
        wgAt (ds.foldl (nnStep P lossT) (m, t)).1.layers k i j =
          wgAt m.layers k i j +
            (ds.map fun s =>
              wgAt (gradLayers (Losses.lookup P lossT) net.layers s) k i j).sum) := by
  intro ds
  induction ds with
  | nil =>
      intro m t hm
      exact ⟨hm, by simp, fun k i hk hi => by simp, fun k i j hk hi hj => by simp⟩
  | cons s rest ih =>
      intro m t hm
      have hnext : nnStep P lossT (m, t) s =
          ({ m with layers := (backLayers (forwardLayers m.layers s.input).1
              ((Losses.lookup P lossT).dfn
                (forwardLayers m.layers s.input).2 s.target)).1 },
           t + (Losses.lookup P lossT).fn
             (forwardLayers m.layers s.input).2 s.target) := rfl
      have hBcore : ((backLayers (forwardLayers m.layers s.input).1
          ((Losses.lookup P lossT).dfn
            (forwardLayers m.layers s.input).2 s.target)).1).map Layer.core =
          net.layers.map Layer.core := by
        rw [backLayers_map_core, forwardLayers_map_core]
        exact hm
      have hpred : (forwardLayers m.layers s.input).2 =
          predictLayers net.layers s.input :=
        predictLayers_congr_core hm s.input
      -- relate the zero-accumulator backward run of this step to `gradLayers`
      have hcc : m.layers.map Layer.core =
          (net.layers.map Layer.zeroGrad).map Layer.core :=
        hm.trans (core_map_zeroGrad net.layers).symm
      have hzz : (forwardLayers m.layers s.input).1.map Layer.zeroGrad =
          (forwardLayers (net.layers.map Layer.zeroGrad) s.input).1.map Layer.zeroGrad :=
        (forwardLayers_congr_core hcc s.input).2
      have hFF : (forwardLayers m.layers s.input).2 =
          (forwardLayers (net.layers.map Layer.zeroGrad) s.input).2 :=
        (forwardLayers_congr_core hcc s.input).1
      have hlenF : net.layers.length = (forwardLayers m.layers s.input).1.length :=
        (length_of_core_map_eq ((forwardLayers_map_core m.layers s.input).trans hm)).symm
      have hcF : (forwardLayers m.layers s.input).1.map Layer.core =
          net.layers.map Layer.core :=
        (forwardLayers_map_core m.layers s.input).trans hm
      have hlenF2 : net.layers.length =
          (forwardLayers (net.layers.map Layer.zeroGrad) s.input).1.length := by
        refine (length_of_core_map_eq ?_).symm
        exact (forwardLayers_map_core _ s.input).trans (core_map_zeroGrad net.layers)
      have hcF2 : (forwardLayers (net.layers.map Layer.zeroGrad) s.input).1.map Layer.core =
          net.layers.map Layer.core :=
        (forwardLayers_map_core _ s.input).trans (core_map_zeroGrad net.layers)
      have hgrad : gradLayers (Losses.lookup P lossT) net.layers s =
          (backLayers (forwardLayers (net.layers.map Layer.zeroGrad) s.input).1
            ((Losses.lookup P lossT).dfn
              (forwardLayers (net.layers.map Layer.zeroGrad) s.input).2 s.target)).1 := rfl
      have hkey : ∀ k i, k < net.layers.length →
          i < (net.layers.getD k defaultLayer).outputSize →
          bgAt (backLayers (forwardLayers m.layers s.input).1
              ((Losses.lookup P lossT).dfn
                (forwardLayers m.layers s.input).2 s.target)).1 k i =
            bgAt m.layers k i +
              bgAt (gradLayers (Losses.lookup P lossT) net.layers s) k i := by
        intro k i hk hi
        have hk1 : k < (forwardLayers m.layers s.input).1.length := hlenF ▸ hk
        have hi1 : i < ((forwardLayers m.layers s.input).1.getD k defaultLayer).outputSize := by
          rw [outAt_of_core_map_eq hcF]
          exact hi
        have hsplit := (backLayers_grad_split (forwardLayers m.layers s.input).1
          ((Losses.lookup P lossT).dfn (forwardLayers m.layers s.input).2 s.target)
          k i 0 hk1).1 hi1
        have hk2 : k < (forwardLayers (net.layers.map Layer.zeroGrad) s.input).1.length :=
          hlenF2 ▸ hk
        have hi2 : i < ((forwardLayers (net.layers.map Layer.zeroGrad) s.input).1.getD
            k defaultLayer).outputSize := by
          rw [outAt_of_core_map_eq hcF2]
          exact hi
        have hsplit2 := (backLayers_grad_split
          (forwardLayers (net.layers.map Layer.zeroGrad) s.input).1
          ((Losses.lookup P lossT).dfn
            (forwardLayers (net.layers.map Layer.zeroGrad) s.input).2 s.target)
          k i 0 hk2).1 hi2
        have hz : bgAt (forwardLayers (net.layers.map Layer.zeroGrad) s.input).1 k i = 0 := by
          rw [bgAt_of_paramsOf_map_eq (forwardLayers_map_paramsOf _ s.input)]
          exact bgAt_map_zeroGrad net.layers k i
        have hforig : bgAt (forwardLayers m.layers s.input).1 k i = bgAt m.layers k i :=
          bgAt_of_paramsOf_map_eq (forwardLayers_map_paramsOf m.layers s.input) k i
        rw [hsplit, hforig, hgrad, hsplit2, hz, hzz, hFF]
        ring
      have hkeyW : ∀ k i j, k < net.layers.length →
          i < (net.layers.getD k defaultLayer).outputSize →
          j < (net.layers.getD k defaultLayer).inputSize →
          wgAt (backLayers (forwardLayers m.layers s.input).1
              ((Losses.lookup P lossT).dfn
                (forwardLayers m.layers s.input).2 s.target)).1 k i j =
            wgAt m.layers k i j +
              wgAt (gradLayers (Losses.lookup P lossT) net.layers s) k i j := by
        intro k i j hk hi hj
        have hk1 : k < (forwardLayers m.layers s.input).1.length := hlenF ▸ hk
        have hi1 : i < ((forwardLayers m.layers s.input).1.getD k defaultLayer).outputSize := by
          rw [outAt_of_core_map_eq hcF]
          exact hi
        have hj1 : j < ((forwardLayers m.layers s.input).1.getD k defaultLayer).inputSize := by
          rw [inAt_of_core_map_eq hcF]
          exact hj
        have hsplit := (backLayers_grad_split (forwardLayers m.layers s.input).1
          ((Losses.lookup P lossT).dfn (forwardLayers m.layers s.input).2 s.target)
          k i j hk1).2 hi1 hj1
        have hk2 : k < (forwardLayers (net.layers.map Layer.zeroGrad) s.input).1.length :=
          hlenF2 ▸ hk
        have hi2 : i < ((forwardLayers (net.layers.map Layer.zeroGrad) s.input).1.getD
            k defaultLayer).outputSize := by
          rw [outAt_of_core_map_eq hcF2]
          exact hi
        have hj2 : j < ((forwardLayers (net.layers.map Layer.zeroGrad) s.input).1.getD
            k defaultLayer).inputSize := by
          rw [inAt_of_core_map_eq hcF2]
          exact hj
        have hsplit2 := (backLayers_grad_split
          (forwardLayers (net.layers.map Layer.zeroGrad) s.input).1
          ((Losses.lookup P lossT).dfn
            (forwardLayers (net.layers.map Layer.zeroGrad) s.input).2 s.target)
          k i j hk2).2 hi2 hj2
        have hz : wgAt (forwardLayers (net.layers.map Layer.zeroGrad) s.input).1 k i j = 0 := by
          rw [wgAt_of_paramsOf_map_eq (forwardLayers_map_paramsOf _ s.input)]
          exact wgAt_map_zeroGrad net.layers k i j
        have hforig : wgAt (forwardLayers m.layers s.input).1 k i j = wgAt m.layers k i j :=
          wgAt_of_paramsOf_map_eq (forwardLayers_map_paramsOf m.layers s.input) k i j
        rw [hsplit, hforig, hgrad, hsplit2, hz, hzz, hFF]
        ring
      obtain ⟨ih1, ih2, ih3, ih4⟩ := ih
        ({ m with layers := (backLayers (forwardLayers m.layers s.input).1
            ((Losses.lookup P lossT).dfn
              (forwardLayers m.layers s.input).2 s.target)).1 })
        (t + (Losses.lookup P lossT).fn (forwardLayers m.layers s.input).2 s.target)
        hBcore
      rw [List.foldl_cons, hnext]
      refine ⟨ih1, ?_, ?_, ?_⟩
      · rw [ih2, List.map_cons, List.sum_cons, hpred]
        ring
      · intro k i hk hi
        rw [ih3 k i hk hi, List.map_cons, List.sum_cons]
        show bgAt (backLayers (forwardLayers m.layers s.input).1 _).1 k i + _ = _
        rw [hkey k i hk hi]
        ring
      · intro k i j hk hi hj
        rw [ih4 k i j hk hi hj, List.map_cons, List.sum_cons]
        show wgAt (backLayers (forwardLayers m.layers s.input).1 _).1 k i j + _ = _
        rw [hkeyW k i j hk hi hj]
        ring

/-- C1: for a non-empty dataset, `trainBatch(dataset, lr, lossName, l2)`
returns the dataset-order sum of the per-sample losses of the pre-update
network divided by `dataset.length`; it preserves the layer count; and every
bias and weight receives exactly one `applyGradients` update with
`batchSize = dataset.length`, whose accumulated gradient is exactly the sum
over the samples (in dataset order, starting from zeroed accumulators) of
the per-sample backpropagation contributions `gradLayers` — each computed by
running `forward` and then feeding the loss gradient backward layer by layer
from the last layer to the first. -/
theorem claim_C1 (P : Prims K) (net : NeuralNetwork K) (data : List (Sample K))
    (hne : data ≠ []) (lr : K) (lossType : String) (l2 : K) :
    (NeuralNetwork.trainBatch P net data lr lossType l2).2 =
      (data.map fun s =>
        (Losses.lookup P lossType).fn (predictLayers net.layers s.input) s.target).sum
        / (data.length : K) ∧
    (NeuralNetwork.trainBatch P net data lr lossType l2).1.layers.length =
      net.layers.length ∧
    (∀ k, k < net.layers.length →
      ∀ i, i < (net.layers.getD k defaultLayer).outputSize →
      (bAt (NeuralNetwork.trainBatch P net data lr lossType l2).1.layers k i =
        bAt net.layers k i -
          lr * ((data.map fun s =>
            bgAt (gradLayers (Losses.lookup P lossType) net.layers s) k i).sum
              / (data.length : K)) ∧
       ∀ j, j < (net.layers.getD k defaultLayer).inputSize →
        wAt (NeuralNetwork.trainBatch P net data lr lossType l2).1.layers k i j =
          wAt net.layers k i j -
            lr * ((data.map fun s =>
              wgAt (gradLayers (Losses.lookup P lossType) net.layers s) k i j).sum
                / (data.length : K) +
              l2 * wAt net.layers k i j))) := by
  have htb := trainBatch_eq_nnStep P net data lr lossType l2
  have hL : (NeuralNetwork.trainBatch P net data lr lossType l2).1.layers =
      (data.foldl (nnStep P lossType)
        ({ net with layers := net.layers.map Layer.zeroGrad }, (0 : K))).1.layers.map
          (fun l => Layer.applyGradients l lr l2 data.length) := by
    have h2 := congrArg (fun p : NeuralNetwork K × K => p.1.layers) htb
    exact h2
  have hS : (NeuralNetwork.trainBatch P net data lr lossType l2).2 =
      (data.foldl (nnStep P lossType)
        ({ net with layers := net.layers.map Layer.zeroGrad }, (0 : K))).2
        / (data.length : K) := by
    have h2 := congrArg (fun p : NeuralNetwork K × K => p.2) htb
    exact h2
  obtain ⟨hcore, hloss, hbg, hwg⟩ := trainLoop_spec P lossType net data
    ({ net with layers := net.layers.map Layer.zeroGrad }) 0
    (core_map_zeroGrad net.layers)
  refine ⟨?_, ?_, ?_⟩
  · rw [hS, hloss, zero_add]
  · rw [hL, List.length_map]
    exact length_of_core_map_eq hcore
  · intro k hk i hi
    have hgd : ((data.foldl (nnStep P lossType)
        ({ net with layers := net.layers.map Layer.zeroGrad }, (0 : K))).1.layers.map
          (fun l => Layer.applyGradients l lr l2 data.length)).getD k defaultLayer =
        Layer.applyGradients ((data.foldl (nnStep P lossType)
          ({ net with layers := net.layers.map Layer.zeroGrad }, (0 : K))).1.layers.getD
            k defaultLayer) lr l2 data.length := by
      have h2 := getD_map (fun l => Layer.applyGradients l lr l2 data.length)
        ((data.foldl (nnStep P lossType)
          ({ net with layers := net.layers.map Layer.zeroGrad }, (0 : K))).1.layers)
        k defaultLayer
      exact h2
    have hi' : i < ((data.foldl (nnStep P lossType)
        ({ net with layers := net.layers.map Layer.zeroGrad }, (0 : K))).1.layers.getD
          k defaultLayer).outputSize := by
      rw [outAt_of_core_map_eq hcore]
      exact hi
    have hbg' : bgAt (data.foldl (nnStep P lossType)
        ({ net with layers := net.layers.map Layer.zeroGrad }, (0 : K))).1.layers k i =
        (data.map fun s =>
          bgAt (gradLayers (Losses.lookup P lossType) net.layers s) k i).sum := by
      rw [hbg k i hk hi]
      show bgAt (net.layers.map Layer.zeroGrad) k i + _ = _
      rw [bgAt_map_zeroGrad, zero_add]
    constructor
    · unfold bAt
      rw [hL, hgd, applyGradients_bAt _ lr l2 data.length hi']
      show bAt _ k i - lr * (bgAt _ k i / _) = _
      rw [bAt_of_core_map_eq hcore, hbg']
      rfl
    · intro j hj
      have hj' : j < ((data.foldl (nnStep P lossType)
          ({ net with layers := net.layers.map Layer.zeroGrad }, (0 : K))).1.layers.getD
            k defaultLayer).inputSize := by
        rw [inAt_of_core_map_eq hcore]
        exact hj
      have hwg' : wgAt (data.foldl (nnStep P lossType)
          ({ net with layers := net.layers.map Layer.zeroGrad }, (0 : K))).1.layers k i j =
          (data.map fun s =>
            wgAt (gradLayers (Losses.lookup P lossType) net.layers s) k i j).sum := by
        rw [hwg k i j hk hi hj]
        show wgAt (net.layers.map Layer.zeroGrad) k i j + _ = _
        rw [wgAt_map_zeroGrad, zero_add]
      unfold wAt
      rw [hL, hgd, applyGradients_wAt _ lr l2 data.length hi' hj']
      show wAt _ k i j - lr * (wgAt _ k i j / _ + l2 * wAt _ k i j) = _
      rw [wAt_of_core_map_eq hcore, hwg']
      rfl

/-- Witness for C1: the theorem applied to the concrete network `cwNet`, the
one-sample dataset `cwData`, learning rate 1, mean-squared-error and no L2
penalty, over `ℚ`. -/
theorem claim_C1_witness :
    cwData ≠ [] ∧
    ((NeuralNetwork.trainBatch Pq cwNet cwData 1 "mse" 0).2 =
      (cwData.map fun s =>
        (Losses.lookup Pq "mse").fn (predictLayers cwNet.layers s.input) s.target).sum
        / (cwData.length : ℚ) ∧
     (NeuralNetwork.trainBatch Pq cwNet cwData 1 "mse" 0).1.layers.length =
       cwNet.layers.length ∧
     (∀ k, k < cwNet.layers.length →
       ∀ i, i < (cwNet.layers.getD k defaultLayer).outputSize →
       (bAt (NeuralNetwork.trainBatch Pq cwNet cwData 1 "mse" 0).1.layers k i =
         bAt cwNet.layers k i -
           1 * ((cwData.map fun s =>
             bgAt (gradLayers (Losses.lookup Pq "mse") cwNet.layers s) k i).sum
               / (cwData.length : ℚ)) ∧
        ∀ j, j < (cwNet.layers.getD k defaultLayer).inputSize →
         wAt (NeuralNetwork.trainBatch Pq cwNet cwData 1 "mse" 0).1.layers k i j =
           wAt cwNet.layers k i j -
             1 * ((cwData.map fun s =>
               wgAt (gradLayers (Losses.lookup Pq "mse") cwNet.layers s) k i j).sum
                 / (cwData.length : ℚ) +
               0 * wAt cwNet.layers k i j)))) :=
  ⟨List.cons_ne_nil _ _, claim_C1 Pq cwNet cwData (List.cons_ne_nil _ _) 1 "mse" 0⟩

end MiniLLM
